import Mathlib

/-!
# Transactional page set, remote transactions and freelist selection

A shallow embedding of `src/txn.c`, `src/txn_remote.cc` and the inline members of
`src/page_manager.h`, followed by theorems about them.

Pointers are natural numbers, `0` is the null pointer.  Objects live in maps from
pointers to records, so that aliasing through the intrusive `PAGE_LIST_TXN` links
is visible.  Loops that follow pointers take a `fuel` bound and return `none` when
it runs out; the theorems show that a bound of the list's length is enough.
-/

namespace Upscaledb

/-! ## Data model of txn.c -/

/-- The status type `ham_status_t`; `0` is `HAM_SUCCESS`. -/
abbrev ham_status_t := Int

/-- The fields of `ham_page_t` that txn.c reads or writes: the address
(`page_get_self`), the reference counter, the non-persistent flags, the dirty bit
and the two `PAGE_LIST_TXN` links. -/
structure ham_page_t where
  self : Nat
  refcount : Int
  npers_flags : Nat
  dirty : Bool
  next : Nat
  previous : Nat
deriving DecidableEq

/-- The fields of `ham_txn_t` used by txn.c. -/
structure ham_txn_t where
  db : Nat
  pagelist : Nat
deriving DecidableEq

/-- The fields of `ham_db_t` used by txn.c. -/
structure ham_db_t where
  txn : Nat
  txn_id : Nat
deriving DecidableEq

/-- A call that txn.c makes into db.c: `db_flush_page(db, page, flags)` or
`db_free_page(page, flags)`. -/
inductive Call where
  | flush_page (db : Nat) (page : Nat) (flags : Nat)
  | free_page (page : Nat) (flags : Nat)
deriving DecidableEq

/-- The memory txn.c works on, with the record of the calls made into db.c. -/
structure Store where
  pages : Nat → ham_page_t
  txns : Nat → ham_txn_t
  dbs : Nat → ham_db_t
  calls : List Call

/-- The outcome of the calls into db.c, per page: the status `db_flush_page`
returns for it and the status `db_free_page` returns for it. -/
structure Device where
  flush_status : Nat → ham_status_t
  free_status : Nat → ham_status_t

/-- Modelled from the spec: the flag bit `PAGE_NPERS_DELETE_PENDING` of page.h,
which is not under src/ (the spec's `DELETE_PENDING`); a single bit. -/
def PAGE_NPERS_DELETE_PENDING : Nat := 2

/-- Modelled from the spec: the flag `DB_MOVE_TO_FREELIST` of db.h, which is not
under src/; it is only passed on to `db_free_page`. -/
def DB_MOVE_TO_FREELIST : Nat := 1

/-- Modelled from the spec: the flag `TXN_FORCE_WRITE` of txn.h, which is not under
src/ (the spec's `FORCE_WRITE`); a single bit. -/
def TXN_FORCE_WRITE : Nat := 1

/-- Modelled from the spec: the flag `HAM_WRITE_THROUGH` of hamsterdb.h, which is
not under src/; it is only passed on to `db_flush_page`. -/
def HAM_WRITE_THROUGH : Nat := 1

/-! ## Accessor macros of page.h, txn.h and db.h -/

/-- The macro `page_set_next(page, PAGE_LIST_TXN, n)`. -/
def page_set_next (s : Store) (page n : Nat) : Store :=
  { s with pages := Function.update s.pages page { s.pages page with next := n } }

/-- The macro `page_set_previous(page, PAGE_LIST_TXN, n)`. -/
def page_set_previous (s : Store) (page n : Nat) : Store :=
  { s with pages := Function.update s.pages page { s.pages page with previous := n } }

/-- Modelled from the spec: `page_add_ref` of page.h, which is not under src/:
the reference counter goes up by one. -/
def page_add_ref (s : Store) (page : Nat) : Store :=
  let pg := s.pages page
  { s with pages := Function.update s.pages page { pg with refcount := pg.refcount + 1 } }

/-- Modelled from the spec: `page_release_ref` of page.h, which is not under src/:
the reference counter goes down by one.  The counter is an integer here, so that
a release without a matching reference shows as a negative count. -/
def page_release_ref (s : Store) (page : Nat) : Store :=
  let pg := s.pages page
  { s with pages := Function.update s.pages page { pg with refcount := pg.refcount - 1 } }

/-- The macro `page_set_npers_flags(page, f)`. -/
def page_set_npers_flags (s : Store) (page f : Nat) : Store :=
  { s with pages := Function.update s.pages page { s.pages page with npers_flags := f } }

/-- The macro `page_set_dirty(page, d)`. -/
def page_set_dirty (s : Store) (page : Nat) (d : Bool) : Store :=
  { s with pages := Function.update s.pages page { s.pages page with dirty := d } }

/-- The macro `txn_set_pagelist(txn, head)`. -/
def txn_set_pagelist (s : Store) (txn head : Nat) : Store :=
  { s with txns := Function.update s.txns txn { s.txns txn with pagelist := head } }

/-- The macro `db_set_txn(db, txn)`. -/
def db_set_txn (s : Store) (db txn : Nat) : Store :=
  { s with dbs := Function.update s.dbs db { s.dbs db with txn := txn } }

/-- Modelled from the spec: `db_flush_page` of db.c, which is not under src/.  The
call is recorded; the device decides its status; a successful flush leaves the page
not dirty (spec 4.1, `flush()`), a failed one leaves the page as it was. -/
def db_flush_page (dev : Device) (s : Store) (db page flags : Nat) : Store × ham_status_t :=
  let s1 : Store := { s with calls := s.calls ++ [Call.flush_page db page flags] }
  if dev.flush_status page = 0 then (page_set_dirty s1 page false, 0)
  else (s1, dev.flush_status page)

/-- Modelled from the spec: `db_free_page` of db.c, which is not under src/.  The
call is recorded and the device decides its status; the fields of the page that
txn.c uses are left as they are. -/
def db_free_page (dev : Device) (s : Store) (page flags : Nat) : Store × ham_status_t :=
  ({ s with calls := s.calls ++ [Call.free_page page flags] }, dev.free_status page)

/-! ## txn.c -/

/-- Modelled from the spec: `page_list_insert` of page.c, which is not under src/
(the spec's "prepend to pagelist"): `page` becomes the head of the list that
started at `head`; the result is the store and the new head. -/
def page_list_insert (s : Store) (head page : Nat) : Store × Nat :=
  let s := page_set_next s page 0
  let s := page_set_previous s page 0
  if head = 0 then (s, page)
  else
    let s := page_set_next s page head
    let s := page_set_previous s head page
    (s, page)

/-- Modelled from the spec: `page_list_remove` of page.c, which is not under src/
(the spec's "unlinks from pagelist"): the neighbours of `page` are linked to each
other and the links of `page` are cleared; the result is the store and the new
head. -/
def page_list_remove (s : Store) (head page : Nat) : Store × Nat :=
  if page = head then
    let n := (s.pages page).next
    let s := if n ≠ 0 then page_set_previous s n 0 else s
    let s := page_set_next s page 0
    let s := page_set_previous s page 0
    (s, n)
  else
    let n := (s.pages page).next
    let p := (s.pages page).previous
    let s := if p ≠ 0 then page_set_next s p n else s
    let s := if n ≠ 0 then page_set_previous s n p else s
    let s := page_set_next s page 0
    let s := page_set_previous s page 0
    (s, head)

/-- The loop of `txn_get_page` (txn.c:78-86), at page `p`, for the list that
started at `start`.  The result is the page found or the null pointer. -/
def txn_get_page_loop (address start : Nat) : Nat → Store → Nat → Option Nat
  | 0, _, p => if p = 0 then some 0 else none
  | fuel + 1, s, p =>
    if p = 0 then some 0
    else
      let o := (s.pages p).self
      if o = address then some p
      else
        let p := (s.pages p).next
        if start = p then some 0
        else txn_get_page_loop address start fuel s p

/-- The function `txn_get_page` (txn.c:71-89); the `ham_assert` is compiled out. -/
def txn_get_page (fuel : Nat) (s : Store) (txn address : Nat) : Option Nat :=
  let start := (s.txns txn).pagelist
  txn_get_page_loop address start fuel s start

/-- The function `txn_add_page` (txn.c:20-47), without `HAM_DEBUG`.  As in C,
`txn_get_page` is only called when `ignore_if_inserted` is set. -/
def txn_add_page (fuel : Nat) (s : Store) (txn page : Nat) (ignore_if_inserted : Bool) :
    Option (Store × ham_status_t) :=
  let found : Option Nat :=
    if ignore_if_inserted then txn_get_page fuel s txn (s.pages page).self else some 0
  match found with
  | none => none
  | some f =>
    if ignore_if_inserted = true ∧ f ≠ 0 then some (s, 0)
    else
      let s := page_add_ref s page
      let r := page_list_insert s (s.txns txn).pagelist page
      some (txn_set_pagelist r.1 txn r.2, 0)

/-- The function `txn_free_page` (txn.c:49-58); the `ham_assert` is compiled out. -/
def txn_free_page (s : Store) (_txn page : Nat) : Store × ham_status_t :=
  (page_set_npers_flags s page ((s.pages page).npers_flags ||| PAGE_NPERS_DELETE_PENDING), 0)

/-- The function `txn_remove_page` (txn.c:60-69). -/
def txn_remove_page (s : Store) (txn page : Nat) : Store × ham_status_t :=
  let r := page_list_remove s (s.txns txn).pagelist page
  let s := txn_set_pagelist r.1 txn r.2
  (page_release_ref s page, 0)

/-- The loop of `ham_txn_abort` (txn.c:171-180), started at `head`. -/
def abort_loop : Nat → Store → Nat → Option Store
  | 0, s, head => if head = 0 then some s else none
  | fuel + 1, s, head =>
    if head = 0 then some s
    else
      let next := (s.pages head).next
      let s := page_set_next s head 0
      let s := page_set_previous s head 0
      let s := page_release_ref s head
      abort_loop fuel s next

/-- The function `ham_txn_abort` (txn.c:160-185). -/
def ham_txn_abort (fuel : Nat) (s : Store) (txn : Nat) : Option (Store × ham_status_t) :=
  let s := db_set_txn s (s.txns txn).db 0
  match abort_loop fuel s (s.txns txn).pagelist with
  | none => none
  | some s => some (txn_set_pagelist s txn 0, 0)

/-- The loop of `ham_txn_commit` (txn.c:114-153), started at `head`.  The result
is the store and `some st` when the loop is left by a `return (st)`, `none` when it
runs to its end.  `fuel0` bounds the loop of the `ham_txn_abort` called at
txn.c:145. -/
def commit_loop (dev : Device) (txn db flags fuel0 : Nat) :
    Nat → Store → Nat → Option (Store × Option ham_status_t)
  | 0, s, head => if head = 0 then some (s, none) else none
  | fuel + 1, s, head =>
    if head = 0 then some (s, none)
    else
      let next := (s.pages head).next
      let s := page_set_next s head 0
      let s := page_set_previous s head 0
      let s := page_release_ref s head
      if (s.pages head).npers_flags &&& PAGE_NPERS_DELETE_PENDING ≠ 0 then
        let s := page_set_dirty s head false
        let r := db_free_page dev s head DB_MOVE_TO_FREELIST
        if r.2 ≠ 0 then some (r.1, some r.2)
        else commit_loop dev txn db flags fuel0 fuel r.1 next
      else
        let r := db_flush_page dev s db head
          (if flags &&& TXN_FORCE_WRITE ≠ 0 then HAM_WRITE_THROUGH else 0)
        if r.2 ≠ 0 then
          let s := txn_set_pagelist r.1 txn head
          match ham_txn_abort fuel0 s txn with
          | none => none
          | some a => some (a.1, some r.2)
        else commit_loop dev txn db flags fuel0 fuel r.1 next

/-- The function `ham_txn_commit` (txn.c:101-158). -/
def ham_txn_commit (dev : Device) (fuel : Nat) (s : Store) (txn flags : Nat) :
    Option (Store × ham_status_t) :=
  let db := (s.txns txn).db
  let s := db_set_txn s db 0
  match commit_loop dev txn db flags fuel fuel s (s.txns txn).pagelist with
  | none => none
  | some (s, some st) => some (s, st)
  | some (s, none) => some (txn_set_pagelist s txn 0, 0)

/-- The pages of the list that starts at `head` and follows the `PAGE_LIST_TXN`
next links to the null pointer are exactly `ps`, in this order. -/
def IsPagelist (pages : Nat → ham_page_t) : Nat → List Nat → Prop
  | head, [] => head = 0
  | head, p :: ps => head = p ∧ p ≠ 0 ∧ IsPagelist pages (pages p).next ps

/-- A store for examples: every page has the given reference count and flags and
no links, transaction `1` belongs to database `1`. -/
def store0 (rc : Int) (fl : Nat) : Store :=
  { pages := fun a => { self := a, refcount := rc, npers_flags := fl, dirty := true,
                        next := 0, previous := 0 },
    txns := fun _ => { db := 1, pagelist := 0 },
    dbs := fun _ => { txn := 1, txn_id := 1 },
    calls := [] }

/-- The store `store0 1 0` with the pagelist `1, 2, 3` linked into transaction `1`. -/
def store123 : Store :=
  let s := store0 1 0
  let s := page_set_next s 1 2
  let s := page_set_next s 2 3
  let s := page_set_previous s 2 1
  let s := page_set_previous s 3 2
  txn_set_pagelist s 1 1

/-- The store `store123` with DELETE_PENDING set on page `2`. -/
def store123d : Store :=
  page_set_npers_flags store123 2 PAGE_NPERS_DELETE_PENDING

/-- A device on which every call succeeds. -/
def dev_ok : Device := { flush_status := fun _ => 0, free_status := fun _ => 0 }

/-- A device on which the flush of page `q` fails with status `st`. -/
def dev_flush_fails (q : Nat) (st : ham_status_t) : Device :=
  { flush_status := fun p => if p = q then st else 0, free_status := fun _ => 0 }

/-! ## txn_remote.cc -/

/-- Modelled from the spec: the state bit `kStateAborted` of class `Transaction`
(txn.h, not under src/), the spec's state `Aborted`. -/
def kStateAborted : Nat := 0x10000

/-- Modelled from the spec: the state bit `kStateCommitted` of class `Transaction`
(txn.h, not under src/), the spec's state `Committed`. -/
def kStateCommitted : Nat := 0x20000

/-- The members of a `RemoteTransaction` that txn_remote.cc reads or writes.  `id`
stands for the address of the object. -/
structure Transaction where
  id : Nat
  m_flags : Nat
  m_remote_handle : Nat
deriving DecidableEq

/-- Modelled from the spec: `Transaction::is_committed` of txn.h, which is not
under src/: the bit `kStateCommitted` is set. -/
def Transaction.is_committed (t : Transaction) : Bool :=
  t.m_flags &&& kStateCommitted != 0

/-- Modelled from the spec: `Transaction::is_aborted` of txn.h, which is not under
src/: the bit `kStateAborted` is set. -/
def Transaction.is_aborted (t : Transaction) : Bool :=
  t.m_flags &&& kStateAborted != 0

/-- The part of the server's reply that txn_remote.cc reads: the status and, for
a begin, the handle of the transaction. -/
structure Reply where
  status : ham_status_t
  txn_handle : Nat
deriving DecidableEq

/-- The constructor `RemoteTransaction::RemoteTransaction` (txn_remote.cc:35-58),
for the object at address `id`, given the server's reply.  The base class
constructor stores `flags` in `m_flags`; `throw Exception(st)` is `Except.error st`. -/
def RemoteTransaction.new (id flags : Nat) (reply : Reply) : Except ham_status_t Transaction :=
  let t : Transaction := { id := id, m_flags := flags, m_remote_handle := 0 }
  let st := reply.status
  if st ≠ 0 then Except.error st
  else
    let t := { t with m_flags := t.m_flags ||| kStateCommitted }
    Except.ok { t with m_remote_handle := reply.txn_handle }

/-- The method `RemoteTransaction::commit` (txn_remote.cc:60-78), given the status
of the server's reply. -/
def RemoteTransaction.commit (t : Transaction) (st : ham_status_t) :
    Except ham_status_t Transaction :=
  if st ≠ 0 then Except.error st
  else Except.ok { t with m_flags := t.m_flags ||| kStateAborted }

/-- The method `RemoteTransaction::abort` (txn_remote.cc:80-95), given the status
of the server's reply. -/
def RemoteTransaction.abort (t : Transaction) (st : ham_status_t) :
    Except ham_status_t Transaction :=
  if st ≠ 0 then Except.error st
  else Except.ok t

/-- The list of transactions of a `RemoteTransactionManager`, oldest first:
`get_oldest_txn` is its head, `append_txn_at_tail` appends to it and
`remove_txn_from_head` drops its head (txn.h, not under src/). -/
structure RemoteTransactionManager where
  txns : List Transaction
deriving DecidableEq

/-- The loop of `RemoteTransactionManager::flush_committed_txns`
(txn_remote.cc:129-136) on the manager's list. -/
def flush_committed_loop : List Transaction → List Transaction
  | [] => []
  | oldest :: rest =>
    if oldest.is_committed || oldest.is_aborted then flush_committed_loop rest
    else oldest :: rest

/-- The method `RemoteTransactionManager::flush_committed_txns`
(txn_remote.cc:124-137). -/
def RemoteTransactionManager.flush_committed_txns (m : RemoteTransactionManager) :
    RemoteTransactionManager :=
  { m with txns := flush_committed_loop m.txns }

/-- The method `RemoteTransactionManager::begin` (txn_remote.cc:97-104); `id` is the
address of the new object, which is also what is returned. -/
def RemoteTransactionManager.begin (m : RemoteTransactionManager) (id flags : Nat)
    (reply : Reply) : Except ham_status_t (Nat × RemoteTransactionManager) :=
  match RemoteTransaction.new id flags reply with
  | Except.error st => Except.error st
  | Except.ok txn => Except.ok (txn.id, { m with txns := m.txns ++ [txn] })

/-- The call `txn->commit(flags)` or `txn->abort(flags)` on the object at address
`txn`: the object is replaced by what the method `f` leaves.  The method is called
whether or not the object is in the manager's list.  An object that is not in the
list is not part of this model's memory: the method is then run on an object with
that address and no flag set, so that its exception is thrown as in the code, and
what it leaves of the object is not kept. -/
def call_on (l : List Transaction) (txn : Nat)
    (f : Transaction → Except ham_status_t Transaction) :
    Except ham_status_t (List Transaction) :=
  match l with
  | [] =>
    match f { id := txn, m_flags := 0, m_remote_handle := 0 } with
    | Except.error st => Except.error st
    | Except.ok _ => Except.ok []
  | t :: rest =>
    if t.id = txn then
      match f t with
      | Except.error st => Except.error st
      | Except.ok t2 => Except.ok (t2 :: rest)
    else
      match call_on rest txn f with
      | Except.error st => Except.error st
      | Except.ok rest2 => Except.ok (t :: rest2)

/-- The method `RemoteTransactionManager::commit` (txn_remote.cc:106-113), given the
status of the server's reply. -/
def RemoteTransactionManager.commit (m : RemoteTransactionManager) (txn : Nat)
    (st : ham_status_t) : Except ham_status_t RemoteTransactionManager :=
  match call_on m.txns txn (fun t => RemoteTransaction.commit t st) with
  | Except.error e => Except.error e
  | Except.ok l => Except.ok (RemoteTransactionManager.flush_committed_txns { m with txns := l })

/-- The method `RemoteTransactionManager::abort` (txn_remote.cc:115-122), given the
status of the server's reply. -/
def RemoteTransactionManager.abort (m : RemoteTransactionManager) (txn : Nat)
    (st : ham_status_t) : Except ham_status_t RemoteTransactionManager :=
  match call_on m.txns txn (fun t => RemoteTransaction.abort t st) with
  | Except.error e => Except.error e
  | Except.ok l => Except.ok (RemoteTransactionManager.flush_committed_txns { m with txns := l })

/-- The transaction is terminal for `flush_committed_txns`: the test at
txn_remote.cc:130. -/
def Transaction.terminal (t : Transaction) : Bool :=
  t.is_committed || t.is_aborted

/-! ## page_manager.h -/

/-- Modelled from the spec: the environment flag `HAM_IN_MEMORY` of hamsterdb.h,
which is not under src/ (the spec's `IN_MEMORY`); a single bit. -/
def HAM_IN_MEMORY : Nat := 0x80

/-- Modelled from the spec: the environment flag `HAM_READ_ONLY` of hamsterdb.h,
which is not under src/ (the spec's `READ_ONLY`); a single bit. -/
def HAM_READ_ONLY : Nat := 0x4

/-- The part of an `Environment` that page_manager.h reads: `get_flags()`. -/
structure Environment where
  flags : Nat
deriving DecidableEq

/-- A `FullFreelist` object: the environment it was constructed for and `serial`,
the number of full freelists the page manager had created before it, which tells
two objects apart. -/
structure FullFreelist where
  env : Environment
  serial : Nat
deriving DecidableEq

/-- A `Freelist *` that is not null: a database's reduced freelist, named by its
address, or the full freelist. -/
inductive Freelist where
  | reduced (addr : Nat)
  | full (f : FullFreelist)
deriving DecidableEq

/-- The part of a `Database` that page_manager.h reads: `get_reduced_freelist()`,
`none` for a null pointer. -/
structure Database where
  reduced_freelist : Option Nat
deriving DecidableEq

/-- The members `m_env` and `m_freelist` of `PageManager`, and the number of
`new FullFreelist` executed so far. -/
structure PageManager where
  m_env : Environment
  m_freelist : Option FullFreelist
  created : Nat
deriving DecidableEq

/-- The method `PageManager::get_freelist` (page_manager.h:96-105); `db` is `none`
for a null pointer, and so is the result. -/
def PageManager.get_freelist (pm : PageManager) (db : Option Database) :
    Option Freelist × PageManager :=
  let f : Option Nat := match db with
    | some d => d.reduced_freelist
    | none => none
  match f with
  | some r => (some (Freelist.reduced r), pm)
  | none =>
    let pm :=
      if pm.m_freelist = none ∧ pm.m_env.flags &&& HAM_IN_MEMORY = 0 ∧
          pm.m_env.flags &&& HAM_READ_ONLY = 0 then
        { pm with m_freelist := some { env := pm.m_env, serial := pm.created },
                  created := pm.created + 1 }
      else pm
    (pm.m_freelist.map Freelist.full, pm)

/-- The reduced freelist `get_freelist` looks at first: that of `db`, if `db` is
not null and has one. -/
def reduced_of (db : Option Database) : Option Nat :=
  match db with
  | some d => d.reduced_freelist
  | none => none

/-! ## Auxiliary definitions for the theorems about txn.c -/

/-- Decide `IsPagelist` by following the links. -/
instance IsPagelist.decide (pages : Nat → ham_page_t) :
    (head : Nat) → (ps : List Nat) → Decidable (IsPagelist pages head ps)
  | head, [] => inferInstanceAs (Decidable (head = 0))
  | head, p :: ps =>
    have := IsPagelist.decide pages (pages p).next ps
    inferInstanceAs (Decidable (head = p ∧ p ≠ 0 ∧ IsPagelist pages (pages p).next ps))

/-- The page carries `PAGE_NPERS_DELETE_PENDING`, as tested at txn.c:128. -/
def delete_pending (pg : ham_page_t) : Prop :=
  pg.npers_flags &&& PAGE_NPERS_DELETE_PENDING ≠ 0

instance delete_pending.decide (pg : ham_page_t) : Decidable (delete_pending pg) :=
  inferInstanceAs (Decidable (pg.npers_flags &&& PAGE_NPERS_DELETE_PENDING ≠ 0))

/-- The first three statements of the body of both loops (txn.c:116-120 and
txn.c:173-177): the page is unlinked and its reference is released. -/
def unlink_release (s : Store) (p : Nat) : Store :=
  page_release_ref (page_set_previous (page_set_next s p 0) p 0) p

/-- The loop of `ham_txn_abort` run over a given list of pages. -/
def abort_pages (s : Store) : List Nat → Store
  | [] => s
  | p :: ps => abort_pages (unlink_release s p) ps

/-- The flags `ham_txn_commit` passes to `db_flush_page` (txn.c:141). -/
def write_flags (flags : Nat) : Nat :=
  if flags &&& TXN_FORCE_WRITE ≠ 0 then HAM_WRITE_THROUGH else 0

/-- The loop of `ham_txn_commit` run over a given list of pages. -/
def commit_pages (dev : Device) (txn db flags fuel0 : Nat) :
    Store → List Nat → Option (Store × Option ham_status_t)
  | s, [] => some (s, none)
  | s, p :: ps =>
    let s := unlink_release s p
    if (s.pages p).npers_flags &&& PAGE_NPERS_DELETE_PENDING ≠ 0 then
      let r := db_free_page dev (page_set_dirty s p false) p DB_MOVE_TO_FREELIST
      if r.2 ≠ 0 then some (r.1, some r.2)
      else commit_pages dev txn db flags fuel0 r.1 ps
    else
      let r := db_flush_page dev s db p (write_flags flags)
      if r.2 ≠ 0 then
        match ham_txn_abort fuel0 (txn_set_pagelist r.1 txn p) txn with
        | none => none
        | some a => some (a.1, some r.2)
      else commit_pages dev txn db flags fuel0 r.1 ps

/-- The call a commit makes for page `p`, read off the page's flags in `s`. -/
def commit_call (s : Store) (db flags p : Nat) : Call :=
  if delete_pending (s.pages p) then Call.free_page p DB_MOVE_TO_FREELIST
  else Call.flush_page db p (write_flags flags)

/-- The status of the call a commit makes for page `p`. -/
def commit_status (dev : Device) (s : Store) (p : Nat) : ham_status_t :=
  if delete_pending (s.pages p) then dev.free_status p else dev.flush_status p

/-- A page after a commit has handled it with success: unlinked, released once,
not dirty. -/
def committed (pg : ham_page_t) : ham_page_t :=
  { pg with next := 0, previous := 0, refcount := pg.refcount - 1, dirty := false }

/-- A page after an abort has handled it: unlinked and released once. -/
def released (pg : ham_page_t) : ham_page_t :=
  { pg with next := 0, previous := 0, refcount := pg.refcount - 1 }

/-- The store after a commit has handled page `p` with success. -/
def commit_step (s : Store) (db flags p : Nat) : Store :=
  { s with pages := Function.update s.pages p (committed (s.pages p)),
           calls := s.calls ++ [commit_call s db flags p] }

/-- The store after a commit has handled the pages `ps`, in this order, with
success. -/
def commit_steps (db flags : Nat) (s : Store) : List Nat → Store
  | [] => s
  | p :: ps => commit_steps db flags (commit_step s db flags p) ps

/-- The store `ham_txn_commit` leaves when the flush of page `p` fails
(txn.c:142-148): `p` has been released by the loop and once more by the
`ham_txn_abort` that is run on the pagelist `p`. -/
def flush_failed (s : Store) (txn db flags p : Nat) : Store :=
  { pages := Function.update s.pages p (released (released (s.pages p))),
    txns := Function.update s.txns txn { s.txns txn with pagelist := 0 },
    dbs := Function.update s.dbs (s.txns txn).db { s.dbs (s.txns txn).db with txn := 0 },
    calls := s.calls ++ [Call.flush_page db p (write_flags flags)] }

/-- The page a call into db.c is made for. -/
def Call.page : Call → Nat
  | Call.flush_page _ p _ => p
  | Call.free_page p _ => p

/-- The pages of the doubly linked list that starts at `head`, whose head has the
previous link `prev`, are exactly `ps`, in this order: the next links lead through
`ps` to the null pointer and every previous link points back. -/
def IsDList (pages : Nat → ham_page_t) : Nat → Nat → List Nat → Prop
  | _, head, [] => head = 0
  | prev, head, p :: ps =>
    head = p ∧ p ≠ 0 ∧ (pages p).previous = prev ∧ IsDList pages p (pages p).next ps

/-- The page is a member of the pagelist of transaction `txn`. -/
def in_pagelist (s : Store) (txn page : Nat) : Prop :=
  ∃ ps, IsPagelist s.pages (s.txns txn).pagelist ps ∧ page ∈ ps

/-- The store `txn_add_page` leaves when it inserts the page. -/
def add_result (s : Store) (txn page : Nat) : Store :=
  txn_set_pagelist
    (page_list_insert (page_add_ref s page) ((page_add_ref s page).txns txn).pagelist page).1
    txn (page_list_insert (page_add_ref s page) ((page_add_ref s page).txns txn).pagelist page).2

/-- Decide `IsDList` by following the links. -/
instance IsDList.decide (pages : Nat → ham_page_t) :
    (prev head : Nat) → (ps : List Nat) → Decidable (IsDList pages prev head ps)
  | _, head, [] => inferInstanceAs (Decidable (head = 0))
  | prev, head, p :: ps =>
    have := IsDList.decide pages p (pages p).next ps
    inferInstanceAs (Decidable (head = p ∧ p ≠ 0 ∧ (pages p).previous = prev ∧
      IsDList pages p (pages p).next ps))

/-- A sequence of calls `txn_add_page(txn, p, flag)`, one for each pair `(p, flag)`
of the list, in the order of the list. -/
def txn_add_pages (fuel txn : Nat) : Store → List (Nat × Bool) → Option Store
  | s, [] => some s
  | s, a :: rest =>
    match txn_add_page fuel s txn a.1 a.2 with
    | none => none
    | some r => txn_add_pages fuel txn r.1 rest

/-! ## page_manager.h: add_to_freelist and get_blob_alignment -/

/-- The part of a C++ `Page` that page_manager.h reads: `get_db()`, `none` for a
null pointer; `address` tells pages apart. -/
structure Page where
  db : Option Database
  address : Nat
deriving DecidableEq

/-- A call of a method of a freelist made by `PageManager::add_to_freelist`:
`f->free_page(page)` or `f->free_area(address, size)`. -/
inductive FreelistCall where
  | free_page (f : Freelist) (page : Page)
  | free_area (f : Freelist) (address size : Nat)
deriving DecidableEq

/-- What the methods of the freelists (full_freelist.h and reduced_freelist.h, not
under src/) return: the status of `free_page` and of `free_area`, and the value
of `get_blob_alignment`. -/
structure FreelistMethods where
  free_page : Freelist → Page → ham_status_t
  free_area : Freelist → Nat → Nat → ham_status_t
  get_blob_alignment : Freelist → Int

/-- The method `PageManager::add_to_freelist(Page *page)` (page_manager.h:128-133).
The result is the status, the page manager as `get_freelist` leaves it, and the
calls made on the freelist. -/
def PageManager.add_to_freelist (fm : FreelistMethods) (pm : PageManager) (page : Page) :
    ham_status_t × PageManager × List FreelistCall :=
  let r := pm.get_freelist page.db
  match r.1 with
  | some f => (fm.free_page f page, r.2, [FreelistCall.free_page f page])
  | none => (0, r.2, [])

/-- The method `PageManager::add_to_freelist(Database *db, ham_u64_t address,
ham_size_t size)` (page_manager.h:137-143). -/
def PageManager.add_to_freelist_area (fm : FreelistMethods) (pm : PageManager)
    (db : Option Database) (address size : Nat) :
    ham_status_t × PageManager × List FreelistCall :=
  let r := pm.get_freelist db
  match r.1 with
  | some f => (fm.free_area f address size, r.2, [FreelistCall.free_area f address size])
  | none => (0, r.2, [])

/-- The method `PageManager::get_blob_alignment` (page_manager.h:108-110).  The
result is `none` when the method is called through the null pointer that
`get_freelist` returned, for which C++ defines no behaviour. -/
def PageManager.get_blob_alignment (fm : FreelistMethods) (pm : PageManager)
    (db : Option Database) : Option Int × PageManager :=
  let r := pm.get_freelist db
  match r.1 with
  | some f => (some (fm.get_blob_alignment f), r.2)
  | none => (none, r.2)

/-- Freelist methods for examples: `free_page` returns -18 and `free_area` returns
-8 on the full freelist, both return 0 on a reduced one; the alignment is 32. -/
def fm0 : FreelistMethods :=
  { free_page := fun f _ => match f with
      | Freelist.full _ => -18
      | Freelist.reduced _ => 0,
    free_area := fun f _ _ => match f with
      | Freelist.full _ => -8
      | Freelist.reduced _ => 0,
    get_blob_alignment := fun _ => 32 }

/-- A device on which `db_free_page` of page `q` fails with status `st`. -/
def dev_free_fails (q : Nat) (st : ham_status_t) : Device :=
  { flush_status := fun _ => 0, free_status := fun p => if p = q then st else 0 }

/-! ## page.c, as unittests/page.cpp uses it -/

/-- Modelled from the spec: the status `HAM_IO_ERROR` of hamsterdb.h, which is not
under src/ (the spec's `IoError`). -/
def HAM_IO_ERROR : ham_status_t := -18

/-- Modelled from the spec: the Device of section 6, which is not under src/: a
file of `filesize` bytes, `bytes i` being the byte at offset `i`. -/
structure FileDevice where
  filesize : Nat
  bytes : Nat → Nat

/-- Modelled from the spec: the attributes of a Page that `flush` and `fetch` use
(section 3): the address (`page_get_self`), the buffer (`page_get_pers`) and the
dirty bit. -/
structure DiskPage where
  self : Nat
  pers : List Nat
  dirty : Bool
deriving DecidableEq

/-- Modelled from the spec: `write_page(addr, buf)` of the Device (section 6),
which is not under src/: inside the file the bytes of `buf` replace those at
`addr`; a write that does not lie inside the file fails (`none`). -/
def FileDevice.write_page (d : FileDevice) (addr : Nat) (buf : List Nat) : Option FileDevice :=
  if addr + buf.length ≤ d.filesize then
    some { d with bytes := fun i =>
      if addr ≤ i ∧ i < addr + buf.length then buf.getD (i - addr) 0 else d.bytes i }
  else none

/-- Modelled from the spec: `read_page(addr, buf)` of the Device (section 6), which
is not under src/: the `size` bytes at `addr`; a read that does not lie inside
the file fails (`none`). -/
def FileDevice.read_page (d : FileDevice) (addr size : Nat) : Option (List Nat) :=
  if addr + size ≤ d.filesize then some ((List.range size).map (fun i => d.bytes (addr + i)))
  else none

/-- Modelled from the spec: `page_flush` of page.c, which is not under src/
(section 4.1, `flush()`: "writes bytes to Device if dirty; clears dirty"; a
failure of the Device surfaces as `IoError`).  The result is the device, the page
and the status. -/
def page_flush (d : FileDevice) (page : DiskPage) : FileDevice × DiskPage × ham_status_t :=
  if page.dirty = false then (d, page, 0)
  else
    match d.write_page page.self page.pers with
    | none => (d, page, HAM_IO_ERROR)
    | some d2 => (d2, { page with dirty := false }, 0)

/-- Modelled from the spec: `page_fetch` of page.c, which is not under src/
(section 4.1, `fetch(pagesize)`: "reads bytes from address via Device"; a failure
of the Device surfaces as `IoError`).  The result is the page and the status. -/
def page_fetch (d : FileDevice) (page : DiskPage) (size : Nat) : DiskPage × ham_status_t :=
  match d.read_page page.self size with
  | none => (page, HAM_IO_ERROR)
  | some b => ({ page with pers := b }, 0)

/-! ## Theorems about txn.c -/

theorem unlink_release_pages (s : Store) (p q : Nat) :
    (unlink_release s p).pages q = if q = p then released (s.pages p) else s.pages q := by
  by_cases h : q = p <;>
    simp [unlink_release, page_release_ref, page_set_previous, page_set_next, released,
      Function.update, h]

theorem unlink_release_rest (s : Store) (p : Nat) :
    (unlink_release s p).txns = s.txns ∧ (unlink_release s p).dbs = s.dbs ∧
      (unlink_release s p).calls = s.calls := by
  simp [unlink_release, page_release_ref, page_set_previous, page_set_next]

theorem IsPagelist_congr {f g : Nat → ham_page_t} :
    ∀ (ps : List Nat) (head : Nat), (∀ p ∈ ps, (f p).next = (g p).next) →
      IsPagelist f head ps → IsPagelist g head ps
  | [], _, _, h => h
  | p :: ps, head, hfg, h => by
    obtain ⟨h1, h2, h3⟩ := h
    refine ⟨h1, h2, ?_⟩
    rw [← hfg p (List.mem_cons_self _ _)]
    exact IsPagelist_congr ps _ (fun q hq => hfg q (List.mem_cons_of_mem _ hq)) h3

theorem IsPagelist_unique {f : Nat → ham_page_t} :
    ∀ (l1 l2 : List Nat) (head : Nat), IsPagelist f head l1 → IsPagelist f head l2 → l1 = l2
  | [], [], _, _, _ => rfl
  | [], q :: l2, head, h1, h2 => by
    exact absurd (h2.1.symm.trans h1) h2.2.1
  | p :: l1, [], head, h1, h2 => by
    exact absurd (h1.1.symm.trans h2) h1.2.1
  | p :: l1, q :: l2, head, h1, h2 => by
    have hpq : p = q := h1.1.symm.trans h2.1
    subst hpq
    rw [IsPagelist_unique l1 l2 _ h1.2.2 h2.2.2]

theorem IsPagelist_suffix {f : Nat → ham_page_t} :
    ∀ (a : List Nat) (p : Nat) (b : List Nat) (head : Nat),
      IsPagelist f head (a ++ p :: b) → IsPagelist f p (p :: b)
  | [], p, b, head, h => ⟨rfl, h.2.1, h.2.2⟩
  | _ :: a, p, b, _, h => IsPagelist_suffix a p b _ h.2.2

theorem IsPagelist_not_mem {f : Nat → ham_page_t} {p head : Nat} {ps : List Nat}
    (h : IsPagelist f head (p :: ps)) : p ∉ ps := by
  intro hp
  obtain ⟨a, b, hab⟩ := List.append_of_mem hp
  have h1 : IsPagelist f p (p :: b) := by
    apply IsPagelist_suffix a p b (f p).next
    rw [← hab]; exact h.2.2
  have h2 : IsPagelist f p (p :: ps) := ⟨rfl, h.2.1, h.2.2⟩
  have h3 := IsPagelist_unique _ _ _ h1 h2
  have h4 : (p :: b).length = (p :: ps).length := by rw [h3]
  rw [hab] at h4
  simp at h4
  omega

theorem IsPagelist_nodup {f : Nat → ham_page_t} :
    ∀ (ps : List Nat) (head : Nat), IsPagelist f head ps → ps.Nodup
  | [], _, _ => List.nodup_nil
  | p :: ps, _, h => List.nodup_cons.mpr ⟨IsPagelist_not_mem h, IsPagelist_nodup ps _ h.2.2⟩

theorem IsPagelist_ne_zero {f : Nat → ham_page_t} :
    ∀ (ps : List Nat) (head : Nat), IsPagelist f head ps → ∀ p ∈ ps, p ≠ 0
  | [], _, _, _, hp => by simp at hp
  | q :: ps, _, h, p, hp => by
    rcases List.mem_cons.mp hp with rfl | hp
    · exact h.2.1
    · exact IsPagelist_ne_zero ps _ h.2.2 p hp

/-- Unlinking and releasing `p` keeps a list that does not hold `p`. -/
theorem IsPagelist_unlink_release {s : Store} {p head : Nat} {ps : List Nat}
    (hp : p ∉ ps) (h : IsPagelist s.pages head ps) :
    IsPagelist (unlink_release s p).pages head ps := by
  refine IsPagelist_congr ps head (fun q hq => ?_) h
  have hne : q ≠ p := fun e => hp (e ▸ hq)
  rw [unlink_release_pages, if_neg hne]

/-- On a well-formed pagelist the loop of `ham_txn_abort` ends within `fuel` rounds
and does what `abort_pages` does. -/
theorem abort_loop_eq :
    ∀ (ps : List Nat) (fuel : Nat) (s : Store) (head : Nat),
      IsPagelist s.pages head ps → ps.length ≤ fuel →
      abort_loop fuel s head = some (abort_pages s ps)
  | [], fuel, s, head, h, _ => by
    have h0 : head = 0 := h
    cases fuel <;> simp [abort_loop, abort_pages, h0]
  | p :: ps, 0, s, head, _, hf => by simp at hf
  | p :: ps, fuel + 1, s, head, h, hf => by
    have hp : p ∉ ps := IsPagelist_not_mem h
    obtain ⟨h1, h2, h3⟩ := h
    subst h1
    have hf2 : ps.length ≤ fuel := by simpa using hf
    have ih := abort_loop_eq ps fuel (unlink_release s head) (s.pages head).next
      (IsPagelist_unlink_release hp h3) hf2
    simp only [abort_loop, if_neg h2, abort_pages]
    exact ih

theorem abort_pages_pages :
    ∀ (ps : List Nat) (s : Store), ps.Nodup → ∀ q,
      (abort_pages s ps).pages q = if q ∈ ps then released (s.pages q) else s.pages q
  | [], s, _, q => by simp [abort_pages]
  | p :: ps, s, hnd, q => by
    obtain ⟨hp, hnd2⟩ := List.nodup_cons.mp hnd
    rw [abort_pages, abort_pages_pages ps _ hnd2 q, unlink_release_pages]
    by_cases hq : q = p
    · subst hq; simp [hp]
    · simp [hq]

theorem abort_pages_rest :
    ∀ (ps : List Nat) (s : Store),
      (abort_pages s ps).txns = s.txns ∧ (abort_pages s ps).dbs = s.dbs ∧
        (abort_pages s ps).calls = s.calls
  | [], s => by simp [abort_pages]
  | p :: ps, s => by
    rw [abort_pages]
    obtain ⟨h1, h2, h3⟩ := abort_pages_rest ps (unlink_release s p)
    obtain ⟨g1, g2, g3⟩ := unlink_release_rest s p
    exact ⟨h1.trans g1, h2.trans g2, h3.trans g3⟩

/-- What `ham_txn_abort` returns on a well-formed pagelist. -/
theorem ham_txn_abort_eq (fuel : Nat) (s : Store) (txn : Nat) (ps : List Nat)
    (h : IsPagelist s.pages (s.txns txn).pagelist ps) (hf : ps.length ≤ fuel) :
    ham_txn_abort fuel s txn =
      some (txn_set_pagelist (abort_pages (db_set_txn s (s.txns txn).db 0) ps) txn 0, 0) := by
  have h2 : IsPagelist (db_set_txn s (s.txns txn).db 0).pages
      ((db_set_txn s (s.txns txn).db 0).txns txn).pagelist ps := h
  simp only [ham_txn_abort]
  rw [abort_loop_eq ps fuel _ _ h2 hf]

theorem db_free_page_pages (dev : Device) (s : Store) (p f : Nat) :
    (db_free_page dev s p f).1.pages = s.pages := rfl

theorem db_flush_page_next (dev : Device) (s : Store) (db p f q : Nat) :
    ((db_flush_page dev s db p f).1.pages q).next = (s.pages q).next := by
  unfold db_flush_page
  by_cases h : dev.flush_status p = 0
  · by_cases hq : q = p <;> simp [h, hq, page_set_dirty, Function.update]
  · simp [h]

theorem page_set_dirty_next (s : Store) (p q : Nat) (d : Bool) :
    ((page_set_dirty s p d).pages q).next = (s.pages q).next := by
  by_cases hq : q = p <;> simp [hq, page_set_dirty, Function.update]

/-- On a well-formed pagelist the loop of `ham_txn_commit` ends within `fuel`
rounds and does what `commit_pages` does. -/
theorem commit_loop_eq (dev : Device) (txn db flags fuel0 : Nat) :
    ∀ (ps : List Nat) (fuel : Nat) (s : Store) (head : Nat),
      IsPagelist s.pages head ps → ps.length ≤ fuel →
      commit_loop dev txn db flags fuel0 fuel s head =
        commit_pages dev txn db flags fuel0 s ps
  | [], fuel, s, head, h, _ => by
    have h0 : head = 0 := h
    cases fuel <;> simp [commit_loop, commit_pages, h0]
  | p :: ps, 0, s, head, _, hf => by simp at hf
  | p :: ps, fuel + 1, s, head, h, hf => by
    have hp : p ∉ ps := IsPagelist_not_mem h
    obtain ⟨h1, h2, h3⟩ := h
    subst h1
    have hf2 : ps.length ≤ fuel := by simpa using hf
    have hl := IsPagelist_unlink_release hp h3
    have ih1 := commit_loop_eq dev txn db flags fuel0 ps fuel
      (db_free_page dev (page_set_dirty (unlink_release s head) head false) head
        DB_MOVE_TO_FREELIST).1 (s.pages head).next
      (IsPagelist_congr ps _ (fun q _ => by
        rw [db_free_page_pages, page_set_dirty_next]) hl) hf2
    have ih2 := commit_loop_eq dev txn db flags fuel0 ps fuel
      (db_flush_page dev (unlink_release s head) db head (write_flags flags)).1
      (s.pages head).next
      (IsPagelist_congr ps _ (fun q _ => by rw [db_flush_page_next]) hl) hf2
    simp only [commit_loop, if_neg h2, commit_pages]
    simp only [unlink_release, write_flags] at ih1 ih2 ⊢
    rw [ih1, ih2]

theorem released_flags (pg : ham_page_t) : (released pg).npers_flags = pg.npers_flags := rfl

/-- A page whose call succeeds: the loop goes on with the rest of the list. -/
theorem commit_pages_cons_ok (dev : Device) (txn db flags fuel0 : Nat) (s : Store)
    (p : Nat) (ps : List Nat) (h : commit_status dev s p = 0) :
    commit_pages dev txn db flags fuel0 s (p :: ps) =
      commit_pages dev txn db flags fuel0 (commit_step s db flags p) ps := by
  by_cases hd : delete_pending (s.pages p)
  · have hst : dev.free_status p = 0 := by simpa [commit_status, hd] using h
    have hd2 : (released (s.pages p)).npers_flags &&& PAGE_NPERS_DELETE_PENDING ≠ 0 := hd
    have hs : (db_free_page dev (page_set_dirty (unlink_release s p) p false) p
        DB_MOVE_TO_FREELIST).1 = commit_step s db flags p := by
      simp [db_free_page, page_set_dirty, commit_step, commit_call, hd, unlink_release,
        page_release_ref, page_set_previous, page_set_next, committed]
    rw [commit_pages]
    simp only [unlink_release_pages, if_true, if_pos hd2]
    rw [hs]
    simp [db_free_page, hst]
  · have hst : dev.flush_status p = 0 := by simpa [commit_status, hd] using h
    have hd2 : ¬ ((released (s.pages p)).npers_flags &&& PAGE_NPERS_DELETE_PENDING ≠ 0) := hd
    have hs : (db_flush_page dev (unlink_release s p) db p (write_flags flags)) =
        (commit_step s db flags p, 0) := by
      simp [db_flush_page, hst, page_set_dirty, commit_step, commit_call, hd, unlink_release,
        page_release_ref, page_set_previous, page_set_next, committed]
    rw [commit_pages]
    simp only [unlink_release_pages, if_true, if_neg hd2]
    rw [hs]
    simp

/-- A page whose flush fails: the loop is left through `ham_txn_abort`. -/
theorem commit_pages_cons_flush_fail (dev : Device) (txn db flags fuel0 : Nat) (s : Store)
    (p : Nat) (ps : List Nat) (hp : p ≠ 0) (hd : ¬ delete_pending (s.pages p))
    (hst : dev.flush_status p ≠ 0) (hf : 1 ≤ fuel0) :
    commit_pages dev txn db flags fuel0 s (p :: ps) =
      some (flush_failed s txn db flags p, some (dev.flush_status p)) := by
  have hd2 : ¬ ((released (s.pages p)).npers_flags &&& PAGE_NPERS_DELETE_PENDING ≠ 0) := hd
  have hs : (db_flush_page dev (unlink_release s p) db p (write_flags flags)) =
      ({ unlink_release s p with
          calls := s.calls ++ [Call.flush_page db p (write_flags flags)] },
        dev.flush_status p) := by
    simp [db_flush_page, hst, unlink_release, page_release_ref, page_set_previous,
      page_set_next]
  rw [commit_pages]
  simp only [unlink_release_pages, if_true, if_neg hd2]
  rw [hs]
  simp only [ne_eq, hst, not_false_eq_true, if_true]
  rw [ham_txn_abort_eq fuel0 _ txn [p] ?_ (by simpa using hf)]
  · simp [flush_failed, txn_set_pagelist, abort_pages, db_set_txn, unlink_release,
      page_release_ref, page_set_previous, page_set_next, released]
  · refine ⟨?_, hp, ?_⟩
    · simp [txn_set_pagelist]
    · simp [txn_set_pagelist, unlink_release, page_release_ref, page_set_previous,
        page_set_next, IsPagelist]

/-- A DELETE_PENDING page whose `db_free_page` fails: the loop is left at once. -/
theorem commit_pages_cons_free_fail (dev : Device) (txn db flags fuel0 : Nat) (s : Store)
    (p : Nat) (ps : List Nat) (hd : delete_pending (s.pages p))
    (hst : dev.free_status p ≠ 0) :
    commit_pages dev txn db flags fuel0 s (p :: ps) =
      some (commit_step s db flags p, some (dev.free_status p)) := by
  have hd2 : (released (s.pages p)).npers_flags &&& PAGE_NPERS_DELETE_PENDING ≠ 0 := hd
  have hs : (db_free_page dev (page_set_dirty (unlink_release s p) p false) p
      DB_MOVE_TO_FREELIST).1 = commit_step s db flags p := by
    simp [db_free_page, page_set_dirty, commit_step, commit_call, hd, unlink_release,
      page_release_ref, page_set_previous, page_set_next, committed]
  rw [commit_pages]
  simp only [unlink_release_pages, if_true, if_pos hd2]
  rw [hs]
  simp [db_free_page, hst]

theorem commit_step_flags (s : Store) (db flags p q : Nat) :
    ((commit_step s db flags p).pages q).npers_flags = (s.pages q).npers_flags := by
  by_cases h : q = p <;> simp [commit_step, committed, Function.update, h]

theorem commit_step_status (dev : Device) (s : Store) (db flags p q : Nat) :
    commit_status dev (commit_step s db flags p) q = commit_status dev s q := by
  simp only [commit_status, delete_pending, commit_step_flags]

theorem commit_step_call (s : Store) (db flags p q : Nat) :
    commit_call (commit_step s db flags p) db flags q = commit_call s db flags q := by
  simp only [commit_call, delete_pending, commit_step_flags]

/-- A run of pages whose calls all succeed: the loop goes on behind them. -/
theorem commit_pages_append_ok (dev : Device) (txn db flags fuel0 : Nat) :
    ∀ (pre rest : List Nat) (s : Store), (∀ p ∈ pre, commit_status dev s p = 0) →
      commit_pages dev txn db flags fuel0 s (pre ++ rest) =
        commit_pages dev txn db flags fuel0 (commit_steps db flags s pre) rest
  | [], rest, s, _ => rfl
  | p :: pre, rest, s, h => by
    rw [List.cons_append, commit_pages_cons_ok dev txn db flags fuel0 s p _
      (h p (List.mem_cons_self _ _)), commit_steps]
    apply commit_pages_append_ok dev txn db flags fuel0 pre rest
    intro q hq
    rw [commit_step_status]
    exact h q (List.mem_cons_of_mem _ hq)

theorem commit_steps_pages (db flags : Nat) :
    ∀ (ps : List Nat) (s : Store), ps.Nodup → ∀ q,
      (commit_steps db flags s ps).pages q =
        if q ∈ ps then committed (s.pages q) else s.pages q
  | [], s, _, q => by simp [commit_steps]
  | p :: ps, s, hnd, q => by
    obtain ⟨hp, hnd2⟩ := List.nodup_cons.mp hnd
    rw [commit_steps, commit_steps_pages db flags ps _ hnd2 q]
    by_cases hq : q = p
    · subst hq; simp [hp, commit_step]
    · simp [hq, commit_step, Function.update]

theorem commit_steps_flags (db flags : Nat) :
    ∀ (ps : List Nat) (s : Store) (q : Nat),
      ((commit_steps db flags s ps).pages q).npers_flags = (s.pages q).npers_flags
  | [], s, q => rfl
  | p :: ps, s, q => by
    rw [commit_steps, commit_steps_flags db flags ps, commit_step_flags]

theorem commit_steps_calls (db flags : Nat) :
    ∀ (ps : List Nat) (s : Store),
      (commit_steps db flags s ps).calls = s.calls ++ ps.map (commit_call s db flags)
  | [], s => by simp [commit_steps]
  | p :: ps, s => by
    rw [commit_steps, commit_steps_calls db flags ps]
    have : (commit_call (commit_step s db flags p) db flags) = commit_call s db flags :=
      funext (commit_step_call s db flags p)
    rw [this]
    simp [commit_step]

theorem commit_steps_rest (db flags : Nat) :
    ∀ (ps : List Nat) (s : Store),
      (commit_steps db flags s ps).txns = s.txns ∧ (commit_steps db flags s ps).dbs = s.dbs
  | [], s => ⟨rfl, rfl⟩
  | p :: ps, s => by
    rw [commit_steps]
    exact commit_steps_rest db flags ps _

/-- When the loop runs to its end, every call it made has succeeded. -/
theorem commit_pages_none (dev : Device) (txn db flags fuel0 : Nat) :
    ∀ (ps : List Nat) (s s2 : Store),
      commit_pages dev txn db flags fuel0 s ps = some (s2, none) →
      ∀ p ∈ ps, commit_status dev s p = 0
  | [], _, _, _, p, hp => by simp at hp
  | q :: ps, s, s2, h, p, hp => by
    by_cases hq : commit_status dev s q = 0
    · rcases List.mem_cons.mp hp with rfl | hp2
      · exact hq
      · rw [commit_pages_cons_ok dev txn db flags fuel0 s q ps hq] at h
        rw [← commit_step_status dev s db flags q p]
        exact commit_pages_none dev txn db flags fuel0 ps _ s2 h p hp2
    · exfalso
      by_cases hd : delete_pending (s.pages q)
      · have hst : dev.free_status q ≠ 0 := by simpa [commit_status, hd] using hq
        rw [commit_pages_cons_free_fail dev txn db flags fuel0 s q ps hd hst] at h
        simp at h
      · have hst : dev.flush_status q ≠ 0 := by simpa [commit_status, hd] using hq
        have hd2 : ¬ ((released (s.pages q)).npers_flags &&& PAGE_NPERS_DELETE_PENDING ≠ 0) :=
          hd
        rw [commit_pages] at h
        simp only [unlink_release_pages, if_true, if_neg hd2] at h
        have h2 : (db_flush_page dev (unlink_release s q) db q (write_flags flags)).2 ≠ 0 := by
          simp [db_flush_page, hst]
        simp only [ne_eq, h2, not_false_eq_true, if_true] at h
        split at h <;> simp at h

/-- What `ham_txn_commit` returns on a well-formed pagelist, through `commit_pages`. -/
theorem ham_txn_commit_eq (dev : Device) (fuel : Nat) (s : Store) (txn flags : Nat)
    (ps : List Nat) (h : IsPagelist s.pages (s.txns txn).pagelist ps)
    (hf : ps.length ≤ fuel) :
    ham_txn_commit dev fuel s txn flags =
      match commit_pages dev txn (s.txns txn).db flags fuel
          (db_set_txn s (s.txns txn).db 0) ps with
      | none => none
      | some (s, some st) => some (s, st)
      | some (s, none) => some (txn_set_pagelist s txn 0, 0) := by
  have h2 : IsPagelist (db_set_txn s (s.txns txn).db 0).pages
      ((db_set_txn s (s.txns txn).db 0).txns txn).pagelist ps := h
  simp only [ham_txn_commit]
  rw [commit_loop_eq dev txn _ flags fuel ps fuel _ _ h2 hf]

/-- What `ham_txn_commit` returns when every call it makes succeeds. -/
theorem ham_txn_commit_ok (dev : Device) (fuel : Nat) (s : Store) (txn flags : Nat)
    (ps : List Nat) (h : IsPagelist s.pages (s.txns txn).pagelist ps)
    (hf : ps.length ≤ fuel) (hok : ∀ p ∈ ps, commit_status dev s p = 0) :
    ham_txn_commit dev fuel s txn flags =
      some (txn_set_pagelist (commit_steps (s.txns txn).db flags
        (db_set_txn s (s.txns txn).db 0) ps) txn 0, 0) := by
  rw [ham_txn_commit_eq dev fuel s txn flags ps h hf]
  have := commit_pages_append_ok dev txn (s.txns txn).db flags fuel ps []
    (db_set_txn s (s.txns txn).db 0) hok
  rw [List.append_nil] at this
  rw [this]
  rfl

/-- What `ham_txn_commit` returns when the flush of page `q` fails after the calls
for the pages `pre` have succeeded. -/
theorem ham_txn_commit_flush_fail (dev : Device) (fuel : Nat) (s : Store) (txn flags : Nat)
    (pre : List Nat) (q : Nat) (post : List Nat)
    (h : IsPagelist s.pages (s.txns txn).pagelist (pre ++ q :: post))
    (hf : (pre ++ q :: post).length ≤ fuel)
    (hok : ∀ p ∈ pre, commit_status dev s p = 0)
    (hq : ¬ delete_pending (s.pages q)) (hst : dev.flush_status q ≠ 0) :
    ham_txn_commit dev fuel s txn flags =
      some (flush_failed (commit_steps (s.txns txn).db flags
        (db_set_txn s (s.txns txn).db 0) pre) txn (s.txns txn).db flags q,
        dev.flush_status q) := by
  have hq0 : q ≠ 0 := IsPagelist_ne_zero _ _ h q (by simp)
  have hf1 : 1 ≤ fuel := by
    have : 1 ≤ (pre ++ q :: post).length := by
      rw [List.length_append, List.length_cons]; omega
    omega
  rw [ham_txn_commit_eq dev fuel s txn flags _ h hf]
  rw [commit_pages_append_ok dev txn (s.txns txn).db flags fuel pre (q :: post)
    (db_set_txn s (s.txns txn).db 0) hok]
  rw [commit_pages_cons_flush_fail dev txn (s.txns txn).db flags fuel _ q post hq0 ?_ hst hf1]
  simp only [delete_pending, commit_steps_flags]
  exact hq

/-- A status with which `commit_loop` is left early is not zero. -/
theorem commit_loop_some (dev : Device) (txn db flags fuel0 : Nat) :
    ∀ (fuel : Nat) (s : Store) (head : Nat) (s2 : Store) (st : ham_status_t),
      commit_loop dev txn db flags fuel0 fuel s head = some (s2, some st) → st ≠ 0
  | 0, s, head, s2, st, h => by
    simp only [commit_loop] at h
    split_ifs at h
    simp at h
  | fuel + 1, s, head, s2, st, h => by
    simp only [commit_loop] at h
    generalize (if flags &&& TXN_FORCE_WRITE ≠ 0 then HAM_WRITE_THROUGH else 0) = wf at h
    split_ifs at h with h0 hd hst hst2
    · simp at h
    · simp only [Option.some.injEq, Prod.mk.injEq] at h
      exact h.2 ▸ hst
    · exact commit_loop_some dev txn db flags fuel0 fuel _ _ s2 st h
    · split at h
      · simp at h
      · simp only [Option.some.injEq, Prod.mk.injEq] at h
        exact h.2 ▸ hst2
    · exact commit_loop_some dev txn db flags fuel0 fuel _ _ s2 st h

/-- When `commit_loop` runs to its end, the fuel covered the whole pagelist. -/
theorem commit_loop_none_fuel (dev : Device) (txn db flags fuel0 : Nat) :
    ∀ (ps : List Nat) (fuel : Nat) (s : Store) (head : Nat) (s2 : Store),
      IsPagelist s.pages head ps →
      commit_loop dev txn db flags fuel0 fuel s head = some (s2, none) → ps.length ≤ fuel
  | [], _, _, _, _, _, _ => Nat.zero_le _
  | p :: ps, 0, s, head, s2, hl, h => by
    have h2 : head ≠ 0 := hl.1 ▸ hl.2.1
    simp [commit_loop, h2] at h
  | p :: ps, fuel + 1, s, head, s2, hl, h => by
    have hp : p ∉ ps := IsPagelist_not_mem hl
    obtain ⟨h1, h2, h3⟩ := hl
    subst h1
    have hl2 := IsPagelist_unlink_release hp h3
    simp only [commit_loop, if_neg h2] at h
    generalize (if flags &&& TXN_FORCE_WRITE ≠ 0 then HAM_WRITE_THROUGH else 0) = wf at h
    have goal : ps.length ≤ fuel := by
      split_ifs at h with hd hst hst2
      · simp at h
      · refine commit_loop_none_fuel dev txn db flags fuel0 ps fuel _ _ s2 ?_ h
        exact IsPagelist_congr ps _ (fun q _ => by
          rw [db_free_page_pages, page_set_dirty_next]; rfl) hl2
      · split at h <;> simp at h
      · refine commit_loop_none_fuel dev txn db flags fuel0 ps fuel _ _ s2 ?_ h
        exact IsPagelist_congr ps _ (fun q _ => by rw [db_flush_page_next]; rfl) hl2
    simpa using goal

/-- When `abort_loop` returns, the fuel covered the whole pagelist. -/
theorem abort_loop_fuel :
    ∀ (ps : List Nat) (fuel : Nat) (s : Store) (head : Nat) (s2 : Store),
      IsPagelist s.pages head ps → abort_loop fuel s head = some s2 → ps.length ≤ fuel
  | [], _, _, _, _, _, _ => Nat.zero_le _
  | p :: ps, 0, s, head, s2, hl, h => by
    have h2 : head ≠ 0 := hl.1 ▸ hl.2.1
    simp [abort_loop, h2] at h
  | p :: ps, fuel + 1, s, head, s2, hl, h => by
    have hp : p ∉ ps := IsPagelist_not_mem hl
    obtain ⟨h1, h2, h3⟩ := hl
    subst h1
    have hl2 := IsPagelist_unlink_release hp h3
    simp only [abort_loop, if_neg h2] at h
    have := abort_loop_fuel ps fuel _ _ s2 hl2 h
    simpa using this

/-- A commit that returns success had fuel for the whole pagelist. -/
theorem ham_txn_commit_success_fuel (dev : Device) (fuel : Nat) (s : Store) (txn flags : Nat)
    (ps : List Nat) (s2 : Store) (hl : IsPagelist s.pages (s.txns txn).pagelist ps)
    (hc : ham_txn_commit dev fuel s txn flags = some (s2, 0)) : ps.length ≤ fuel := by
  simp only [ham_txn_commit] at hc
  split at hc
  · simp at hc
  · rename_i s3 st heq
    simp only [Option.some.injEq, Prod.mk.injEq] at hc
    exact absurd hc.2 (commit_loop_some dev txn _ flags fuel fuel _ _ s3 st heq)
  · rename_i s3 heq
    exact commit_loop_none_fuel dev txn _ flags fuel ps fuel
      (db_set_txn s (s.txns txn).db 0) _ s3 hl heq

/-- C1: for a transaction whose pagelist holds the (pairwise distinct) pages `ps`,
after `ham_txn_abort`, and after `ham_txn_commit` when every flush and every
freelist call it makes succeeds, the call returns success, the refcount of every
page of `ps` is exactly one less than before, the refcount of every other page is
unchanged, and the transaction's pagelist is empty. -/
theorem C1_abort_and_commit_release_each_page_once (dev : Device) (fuel : Nat) (s : Store)
    (txn flags : Nat) (ps : List Nat)
    (hl : IsPagelist s.pages (s.txns txn).pagelist ps) (hf : ps.length ≤ fuel) :
    ps.Nodup ∧
    (∃ s', ham_txn_abort fuel s txn = some (s', 0) ∧
      (∀ p ∈ ps, (s'.pages p).refcount = (s.pages p).refcount - 1) ∧
      (∀ p, p ∉ ps → (s'.pages p).refcount = (s.pages p).refcount) ∧
      (s'.txns txn).pagelist = 0) ∧
    ((∀ p ∈ ps, (delete_pending (s.pages p) → dev.free_status p = 0) ∧
        (¬ delete_pending (s.pages p) → dev.flush_status p = 0)) →
      ∃ s', ham_txn_commit dev fuel s txn flags = some (s', 0) ∧
        (∀ p ∈ ps, (s'.pages p).refcount = (s.pages p).refcount - 1) ∧
        (∀ p, p ∉ ps → (s'.pages p).refcount = (s.pages p).refcount) ∧
        (s'.txns txn).pagelist = 0) := by
  have hnd := IsPagelist_nodup ps _ hl
  refine ⟨hnd, ?_, ?_⟩
  · refine ⟨_, ham_txn_abort_eq fuel s txn ps hl hf, ?_, ?_, ?_⟩
    · intro p hp
      simp [txn_set_pagelist, abort_pages_pages ps _ hnd p, hp, released, db_set_txn]
    · intro p hp
      simp [txn_set_pagelist, abort_pages_pages ps _ hnd p, hp, db_set_txn]
    · simp [txn_set_pagelist]
  · intro hok
    have hok2 : ∀ p ∈ ps, commit_status dev s p = 0 := by
      intro p hp
      by_cases hd : delete_pending (s.pages p)
      · simp [commit_status, hd, (hok p hp).1 hd]
      · simp [commit_status, hd, (hok p hp).2 hd]
    refine ⟨_, ham_txn_commit_ok dev fuel s txn flags ps hl hf hok2, ?_, ?_, ?_⟩
    · intro p hp
      simp [txn_set_pagelist, commit_steps_pages _ _ ps _ hnd p, hp, committed, db_set_txn]
    · intro p hp
      simp [txn_set_pagelist, commit_steps_pages _ _ ps _ hnd p, hp, db_set_txn]
    · simp [txn_set_pagelist]

/-- The claim C1 at the pagelist `1, 2, 3` of `store123`, every call succeeding. -/
theorem C1_witness :
    [1, 2, 3].Nodup ∧
    (∃ s', ham_txn_abort 3 store123 1 = some (s', 0) ∧
      (∀ p ∈ [1, 2, 3], (s'.pages p).refcount = (store123.pages p).refcount - 1) ∧
      (∀ p, p ∉ [1, 2, 3] → (s'.pages p).refcount = (store123.pages p).refcount) ∧
      (s'.txns 1).pagelist = 0) ∧
    ((∀ p ∈ [1, 2, 3], (delete_pending (store123.pages p) → dev_ok.free_status p = 0) ∧
        (¬ delete_pending (store123.pages p) → dev_ok.flush_status p = 0)) →
      ∃ s', ham_txn_commit dev_ok 3 store123 1 0 = some (s', 0) ∧
        (∀ p ∈ [1, 2, 3], (s'.pages p).refcount = (store123.pages p).refcount - 1) ∧
        (∀ p, p ∉ [1, 2, 3] → (s'.pages p).refcount = (store123.pages p).refcount) ∧
        (s'.txns 1).pagelist = 0) :=
  C1_abort_and_commit_release_each_page_once dev_ok 3 store123 1 0 [1, 2, 3]
    (by decide) (by decide)

/-- A status with which the loop of `ham_txn_commit` is left early is not zero. -/
theorem commit_pages_some (dev : Device) (txn db flags fuel0 : Nat) :
    ∀ (ps : List Nat) (s s2 : Store) (st : ham_status_t),
      commit_pages dev txn db flags fuel0 s ps = some (s2, some st) → st ≠ 0
  | [], _, _, _, h => by simp [commit_pages] at h
  | q :: ps, s, s2, st, h => by
    by_cases hq : commit_status dev s q = 0
    · rw [commit_pages_cons_ok dev txn db flags fuel0 s q ps hq] at h
      exact commit_pages_some dev txn db flags fuel0 ps _ s2 st h
    · by_cases hd : delete_pending (s.pages q)
      · have hst : dev.free_status q ≠ 0 := by simpa [commit_status, hd] using hq
        rw [commit_pages_cons_free_fail dev txn db flags fuel0 s q ps hd hst] at h
        simp only [Option.some.injEq, Prod.mk.injEq] at h
        exact h.2 ▸ hst
      · have hst : dev.flush_status q ≠ 0 := by simpa [commit_status, hd] using hq
        have hd2 : ¬ ((released (s.pages q)).npers_flags &&& PAGE_NPERS_DELETE_PENDING ≠ 0) :=
          hd
        rw [commit_pages] at h
        simp only [unlink_release_pages, if_true, if_neg hd2] at h
        have h2 : (db_flush_page dev (unlink_release s q) db q (write_flags flags)).2 =
            dev.flush_status q := by
          simp [db_flush_page, hst]
        simp only [ne_eq, h2, hst, not_false_eq_true, if_true] at h
        split at h
        · simp at h
        · simp only [Option.some.injEq, Prod.mk.injEq] at h
          exact h.2 ▸ hst

/-- When `ham_txn_commit` returns success on a well-formed pagelist, every call
it made has succeeded. -/
theorem ham_txn_commit_success (dev : Device) (fuel : Nat) (s : Store) (txn flags : Nat)
    (ps : List Nat) (s' : Store) (hl : IsPagelist s.pages (s.txns txn).pagelist ps)
    (hf : ps.length ≤ fuel) (hc : ham_txn_commit dev fuel s txn flags = some (s', 0)) :
    ∀ p ∈ ps, commit_status dev s p = 0 := by
  rw [ham_txn_commit_eq dev fuel s txn flags ps hl hf] at hc
  split at hc
  · simp at hc
  · rename_i s2 st heq
    simp only [Option.some.injEq, Prod.mk.injEq] at hc
    exact absurd hc.2 (commit_pages_some dev txn _ flags fuel ps _ s2 st heq)
  · rename_i s2 heq
    exact fun p hp => commit_pages_none dev txn _ flags fuel ps
      (db_set_txn s (s.txns txn).db 0) s2 heq p hp

/-- C2: when `ham_txn_commit` returns success, the calls it has made are, page by
page of the (duplicate-free) pagelist and in its order, one call each:
`db_free_page(p, DB_MOVE_TO_FREELIST)` for a page with DELETE_PENDING, whose dirty
bit is cleared, and `db_flush_page(db, p, ..)` for a page without it; so every page
is handled exactly once, a DELETE_PENDING page is never flushed and any other page
is never handed to the freelist; and each of these calls has succeeded. -/
theorem C2_commit_flushes_or_frees_each_page_once (dev : Device) (fuel : Nat) (s : Store)
    (txn flags : Nat) (ps : List Nat) (s' : Store)
    (hl : IsPagelist s.pages (s.txns txn).pagelist ps)
    (hc : ham_txn_commit dev fuel s txn flags = some (s', 0)) :
    ps.Nodup ∧
    s'.calls = s.calls ++ ps.map (fun p =>
      if delete_pending (s.pages p) then Call.free_page p DB_MOVE_TO_FREELIST
      else Call.flush_page (s.txns txn).db p (write_flags flags)) ∧
    (∀ p ∈ ps, delete_pending (s.pages p) →
      (s'.pages p).dirty = false ∧ dev.free_status p = 0) ∧
    (∀ p ∈ ps, ¬ delete_pending (s.pages p) → dev.flush_status p = 0) := by
  have hnd := IsPagelist_nodup ps _ hl
  have hf := ham_txn_commit_success_fuel dev fuel s txn flags ps s' hl hc
  have hok := ham_txn_commit_success dev fuel s txn flags ps s' hl hf hc
  have he := ham_txn_commit_ok dev fuel s txn flags ps hl hf hok
  rw [he] at hc
  simp only [Option.some.injEq, Prod.mk.injEq, and_true] at hc
  subst hc
  refine ⟨hnd, ?_, ?_, ?_⟩
  · simp only [txn_set_pagelist, commit_steps_calls]
    rfl
  · intro p hp hd
    refine ⟨?_, ?_⟩
    · simp [txn_set_pagelist, commit_steps_pages _ _ ps _ hnd p, hp, committed]
    · simpa [commit_status, hd] using hok p hp
  · intro p hp hd
    simpa [commit_status, hd] using hok p hp

/-- The claim C2 at the pagelist `1, 2, 3` of `store123d`, where page `2` carries
DELETE_PENDING, every call succeeding. -/
theorem C2_witness :
    ∃ s', IsPagelist store123d.pages (store123d.txns 1).pagelist [1, 2, 3] ∧
      ham_txn_commit dev_ok 3 store123d 1 0 = some (s', 0) ∧
      [1, 2, 3].Nodup ∧
      s'.calls = store123d.calls ++ [1, 2, 3].map (fun p =>
        if delete_pending (store123d.pages p) then Call.free_page p DB_MOVE_TO_FREELIST
        else Call.flush_page (store123d.txns 1).db p (write_flags 0)) ∧
      (∀ p ∈ [1, 2, 3], delete_pending (store123d.pages p) →
        (s'.pages p).dirty = false ∧ dev_ok.free_status p = 0) ∧
      (∀ p ∈ [1, 2, 3], ¬ delete_pending (store123d.pages p) → dev_ok.flush_status p = 0) :=
  ⟨_, by decide,
    ham_txn_commit_ok dev_ok 3 store123d 1 0 [1, 2, 3] (by decide) (by decide) (by decide),
    C2_commit_flushes_or_frees_each_page_once dev_ok 3 store123d 1 0 [1, 2, 3] _ (by decide)
      (ham_txn_commit_ok dev_ok 3 store123d 1 0 [1, 2, 3] (by decide) (by decide)
        (by decide))⟩

/-- Whenever the flush of page `q` fails during `ham_txn_commit` after the calls for
the pages `pre` have succeeded, commit returns the status of that flush, the
refcount of every page of `pre` has gone down by one, the refcount of `q` has gone
down by two, and the refcount of the pages behind `q` has not changed. -/
theorem flush_failure_refcounts (dev : Device) (fuel : Nat) (s : Store) (txn flags : Nat)
    (pre : List Nat) (q : Nat) (post : List Nat)
    (h : IsPagelist s.pages (s.txns txn).pagelist (pre ++ q :: post))
    (hf : (pre ++ q :: post).length ≤ fuel)
    (hok : ∀ p ∈ pre, commit_status dev s p = 0)
    (hq : ¬ delete_pending (s.pages q)) (hst : dev.flush_status q ≠ 0) :
    ∃ s', ham_txn_commit dev fuel s txn flags = some (s', dev.flush_status q) ∧
      (∀ p ∈ pre, (s'.pages p).refcount = (s.pages p).refcount - 1) ∧
      (s'.pages q).refcount = (s.pages q).refcount - 2 ∧
      (∀ p ∈ post, (s'.pages p).refcount = (s.pages p).refcount) := by
  have hnd := IsPagelist_nodup _ _ h
  have hnd1 : pre.Nodup := (List.nodup_append.mp hnd).1
  have hdisj := (List.nodup_append.mp hnd).2.2
  have hqpre : q ∉ pre := fun hm => hdisj hm (List.mem_cons_self _ _)
  have hqpost : q ∉ post := (List.nodup_cons.mp (List.nodup_append.mp hnd).2.1).1
  refine ⟨_, ham_txn_commit_flush_fail dev fuel s txn flags pre q post h hf hok hq hst,
    ?_, ?_, ?_⟩
  · intro p hp
    have hpq : p ≠ q := fun e => hqpre (e ▸ hp)
    simp [flush_failed, Function.update, hpq, commit_steps_pages _ _ pre _ hnd1 p, hp,
      committed, db_set_txn]
  · simp [flush_failed, commit_steps_pages _ _ pre _ hnd1 q, hqpre, released, db_set_txn]
    omega
  · intro p hp
    have hpq : p ≠ q := fun e => hqpost (e ▸ hp)
    have hppre : p ∉ pre := fun hm => hdisj hm (List.mem_cons_of_mem _ hp)
    simp [flush_failed, Function.update, hpq, commit_steps_pages _ _ pre _ hnd1 p, hppre,
      db_set_txn]

/-- The general statement at the pagelist `1, 2, 3` of `store123` when the flush of
page `2` fails with status -18. -/
theorem flush_failure_refcounts_witness :
    ∃ s', ham_txn_commit (dev_flush_fails 2 (-18)) 3 store123 1 0 =
        some (s', (dev_flush_fails 2 (-18)).flush_status 2) ∧
      (∀ p ∈ [1], (s'.pages p).refcount = (store123.pages p).refcount - 1) ∧
      (s'.pages 2).refcount = (store123.pages 2).refcount - 2 ∧
      (∀ p ∈ [3], (s'.pages p).refcount = (store123.pages p).refcount) :=
  flush_failure_refcounts (dev_flush_fails 2 (-18)) 3 store123 1 0 [1] 2 [3]
    (by decide) (by decide) (by decide) (by decide) (by decide)

/-- C3, the code at a failing input: pagelist `1, 2, 3`, every page with refcount 1,
the flush of page `2` fails with status -18.  `ham_txn_commit` returns -18; page `1`
has been released once (refcount 0), page `2` twice (refcount -1) and page `3` not
at all (refcount still 1). -/
theorem C3_flush_failure_releases_twice_and_leaks :
    ((store123.pages 1).refcount, (store123.pages 2).refcount,
      (store123.pages 3).refcount) = (1, 1, 1) ∧
    (ham_txn_commit (dev_flush_fails 2 (-18)) 3 store123 1 0).map (fun r =>
      (r.2, (r.1.pages 1).refcount, (r.1.pages 2).refcount, (r.1.pages 3).refcount)) =
      some (-18, 0, -1, 1) := by
  decide

theorem ham_txn_abort_empty (fuel : Nat) (s : Store) (txn : Nat)
    (h : (s.txns txn).pagelist = 0) :
    ∃ s', ham_txn_abort fuel s txn = some (s', 0) ∧ s'.pages = s.pages ∧
      s'.calls = s.calls ∧ (s'.txns txn).pagelist = 0 := by
  have hl : IsPagelist s.pages (s.txns txn).pagelist [] := h
  refine ⟨_, ham_txn_abort_eq fuel s txn [] hl (Nat.zero_le _), ?_, ?_, ?_⟩ <;>
    simp [txn_set_pagelist, abort_pages, db_set_txn]

/-- C4: when the flush of page `q` fails during `ham_txn_commit` (the calls for the
pages `pre` before it having succeeded), commit returns exactly the status of that
flush; the calls it has made are those for `pre` and the failed flush of `q`, so
none is made for a page behind `q`; on return the transaction's pagelist is empty;
and a `ham_txn_abort` run afterwards returns success and leaves every page
(refcount, flags, links) and the record of calls as they are. -/
theorem C4_flush_failure_status_and_empty_pagelist (dev : Device) (fuel : Nat) (s : Store)
    (txn flags : Nat) (pre : List Nat) (q : Nat) (post : List Nat) (st : ham_status_t)
    (hl : IsPagelist s.pages (s.txns txn).pagelist (pre ++ q :: post))
    (hf : (pre ++ q :: post).length ≤ fuel)
    (hok : ∀ p ∈ pre, (delete_pending (s.pages p) → dev.free_status p = 0) ∧
      (¬ delete_pending (s.pages p) → dev.flush_status p = 0))
    (hq : ¬ delete_pending (s.pages q)) (hst : dev.flush_status q = st) (hne : st ≠ 0) :
    ∃ s', ham_txn_commit dev fuel s txn flags = some (s', st) ∧
      (∃ new, s'.calls = s.calls ++ new ∧
        new = pre.map (fun p =>
            if delete_pending (s.pages p) then Call.free_page p DB_MOVE_TO_FREELIST
            else Call.flush_page (s.txns txn).db p (write_flags flags)) ++
          [Call.flush_page (s.txns txn).db q (write_flags flags)] ∧
        ∀ c ∈ new, c.page ∉ post) ∧
      (s'.txns txn).pagelist = 0 ∧
      ∀ fuel2, ∃ s'', ham_txn_abort fuel2 s' txn = some (s'', 0) ∧ s''.pages = s'.pages ∧
        s''.calls = s'.calls ∧ (s''.txns txn).pagelist = 0 := by
  have hok2 : ∀ p ∈ pre, commit_status dev s p = 0 := by
    intro p hp
    by_cases hd : delete_pending (s.pages p)
    · simp [commit_status, hd, (hok p hp).1 hd]
    · simp [commit_status, hd, (hok p hp).2 hd]
  have hnd := IsPagelist_nodup _ _ hl
  have hdisj := (List.nodup_append.mp hnd).2.2
  have hqpost : q ∉ post := (List.nodup_cons.mp (List.nodup_append.mp hnd).2.1).1
  have hst2 : dev.flush_status q ≠ 0 := hst ▸ hne
  have he := ham_txn_commit_flush_fail dev fuel s txn flags pre q post hl hf hok2 hq hst2
  rw [hst] at he
  have hpl : ((flush_failed (commit_steps (s.txns txn).db flags
      (db_set_txn s (s.txns txn).db 0) pre) txn (s.txns txn).db flags q).txns txn).pagelist
      = 0 := by
    simp [flush_failed]
  refine ⟨_, he, ⟨_, ?_, rfl, ?_⟩, hpl, fun fuel2 => ham_txn_abort_empty fuel2 _ txn hpl⟩
  · simp only [flush_failed, commit_steps_calls, List.append_assoc]
    rfl
  · intro c hc
    rcases List.mem_append.mp hc with hc | hc
    · obtain ⟨p, hp, rfl⟩ := List.mem_map.mp hc
      have hpp : p ∉ post := fun hm => hdisj hp (List.mem_cons_of_mem _ hm)
      by_cases hd : delete_pending (s.pages p) <;> simpa [hd, Call.page] using hpp
    · rw [List.mem_singleton] at hc
      subst hc
      exact hqpost

/-- The claim C4 at the pagelist `1, 2, 3` of `store123` when the flush of page `2`
fails with status -18. -/
theorem C4_witness :
    ∃ s', ham_txn_commit (dev_flush_fails 2 (-18)) 3 store123 1 0 = some (s', -18) ∧
      (∃ new, s'.calls = store123.calls ++ new ∧
        new = [1].map (fun p =>
            if delete_pending (store123.pages p) then Call.free_page p DB_MOVE_TO_FREELIST
            else Call.flush_page (store123.txns 1).db p (write_flags 0)) ++
          [Call.flush_page (store123.txns 1).db 2 (write_flags 0)] ∧
        ∀ c ∈ new, c.page ∉ [3]) ∧
      (s'.txns 1).pagelist = 0 ∧
      ∀ fuel2, ∃ s'', ham_txn_abort fuel2 s' 1 = some (s'', 0) ∧ s''.pages = s'.pages ∧
        s''.calls = s'.calls ∧ (s''.txns 1).pagelist = 0 :=
  C4_flush_failure_status_and_empty_pagelist (dev_flush_fails 2 (-18)) 3 store123 1 0
    [1] 2 [3] (-18) (by decide) (by decide) (by decide) (by decide) (by decide) (by decide)

/-! ## The DELETE_PENDING flag and the pagelist -/

theorem delete_pending_iff (pg : ham_page_t) :
    delete_pending pg ↔ pg.npers_flags.testBit 1 = true := by
  have h : pg.npers_flags &&& PAGE_NPERS_DELETE_PENDING =
      (pg.npers_flags.testBit 1).toNat * 2 ^ 1 := Nat.and_two_pow pg.npers_flags 1
  unfold delete_pending
  rw [h]
  cases pg.npers_flags.testBit 1 <;> simp

theorem delete_pending_set (f : Nat) :
    (f ||| PAGE_NPERS_DELETE_PENDING) &&& PAGE_NPERS_DELETE_PENDING ≠ 0 := by
  have h : (f ||| PAGE_NPERS_DELETE_PENDING) &&& PAGE_NPERS_DELETE_PENDING =
      ((f ||| PAGE_NPERS_DELETE_PENDING).testBit 1).toNat * 2 ^ 1 :=
    Nat.and_two_pow _ 1
  rw [h, Nat.testBit_or]
  have h2 : PAGE_NPERS_DELETE_PENDING.testBit 1 = true := by decide
  rw [h2]
  simp

theorem IsDList_congr {f g : Nat → ham_page_t} :
    ∀ (ps : List Nat) (prev head : Nat),
      (∀ p ∈ ps, (f p).next = (g p).next ∧ (f p).previous = (g p).previous) →
      IsDList f prev head ps → IsDList g prev head ps
  | [], _, _, _, h => h
  | p :: ps, prev, head, hfg, h => by
    obtain ⟨h1, h2, h3, h4⟩ := h
    have hp := hfg p (List.mem_cons_self _ _)
    refine ⟨h1, h2, hp.2 ▸ h3, ?_⟩
    rw [← hp.1]
    exact IsDList_congr ps _ _ (fun q hq => hfg q (List.mem_cons_of_mem _ hq)) h4

theorem IsDList.isPagelist {f : Nat → ham_page_t} :
    ∀ (ps : List Nat) (prev head : Nat), IsDList f prev head ps → IsPagelist f head ps
  | [], _, _, h => h
  | p :: ps, _, _, h => ⟨h.1, h.2.1, IsDList.isPagelist ps _ _ h.2.2.2⟩

theorem IsDList_prev_mem {f : Nat → ham_page_t} :
    ∀ (a : List Nat) (x : Nat) (b : List Nat) (prev head : Nat),
      IsDList f prev head (a ++ x :: b) → a ≠ [] → (f x).previous ∈ a
  | [], _, _, _, _, _, hne => absurd rfl hne
  | [y], x, b, _, _, h, _ => by
    have h2 : IsDList f y (f y).next (x :: b) := h.2.2.2
    rw [h2.2.2.1]
    exact List.mem_cons_self _ _
  | y :: z :: a, x, b, _, _, h, _ => by
    have h2 : IsDList f y (f y).next ((z :: a) ++ x :: b) := h.2.2.2
    exact List.mem_cons_of_mem _ (IsDList_prev_mem (z :: a) x b _ _ h2 (by simp))

theorem IsDList_next_mem {f : Nat → ham_page_t} :
    ∀ (a : List Nat) (x : Nat) (b : List Nat) (prev head : Nat),
      IsDList f prev head (a ++ x :: b) → (f x).next = 0 ∨ (f x).next ∈ b
  | [], x, [], _, _, h => Or.inl h.2.2.2
  | [], x, n :: b, _, _, h => by
    have h2 : IsDList f x (f x).next (n :: b) := h.2.2.2
    right
    rw [h2.1]
    exact List.mem_cons_self _ _
  | y :: a, x, b, _, _, h => IsDList_next_mem a x b _ _ h.2.2.2

theorem IsDList_not_mem {f : Nat → ham_page_t} {p prev head : Nat} {ps : List Nat}
    (h : IsDList f prev head (p :: ps)) : p ∉ ps :=
  IsPagelist_not_mem (IsDList.isPagelist _ _ _ h)

/-- The pages after `page_list_insert` of a page that is not the head. -/
theorem page_list_insert_pages (s : Store) (head page q : Nat) (hne : head ≠ page) :
    (page_list_insert s head page).1.pages q =
      if q = page then { s.pages page with next := head, previous := 0 }
      else if q = head ∧ head ≠ 0 then { s.pages head with previous := page }
      else s.pages q := by
  unfold page_list_insert
  by_cases h0 : head = 0
  · by_cases hq : q = page
    · simp [h0, hq, page_set_next, page_set_previous]
    · simp [h0, hq, page_set_next, page_set_previous, Function.update]
  · by_cases hq : q = page
    · subst hq
      simp [h0, page_set_next, page_set_previous, Function.update, Ne.symm hne]
    · by_cases hq2 : q = head
      · subst hq2
        simp [h0, hq, page_set_next, page_set_previous, Function.update]
      · simp [h0, hq, hq2, page_set_next, page_set_previous, Function.update]

theorem page_list_insert_head (s : Store) (head page : Nat) :
    (page_list_insert s head page).2 = page := by
  unfold page_list_insert
  by_cases h0 : head = 0 <;> simp [h0]

theorem page_list_insert_rest (s : Store) (head page : Nat) :
    (page_list_insert s head page).1.txns = s.txns ∧
    (page_list_insert s head page).1.dbs = s.dbs ∧
    (page_list_insert s head page).1.calls = s.calls := by
  unfold page_list_insert
  by_cases h0 : head = 0 <;> simp [h0, page_set_next, page_set_previous]

/-- Inserting a page that is not null and not in the list puts it in front. -/
theorem page_list_insert_dlist (s : Store) (head page : Nat) (ps : List Nat)
    (hd : IsDList s.pages 0 head ps) (hp : page ≠ 0) (hnot : page ∉ ps) :
    IsDList (page_list_insert s head page).1.pages 0 page (page :: ps) := by
  have hne : head ≠ page := by
    cases ps with
    | nil => exact fun e => hp (e ▸ hd)
    | cons h ps2 => exact fun e => hnot (by rw [← e, hd.1]; exact List.mem_cons_self _ _)
  refine ⟨rfl, hp, ?_, ?_⟩
  · rw [page_list_insert_pages s head page page hne]; simp
  · have hnx : ((page_list_insert s head page).1.pages page).next = head := by
      rw [page_list_insert_pages s head page page hne]; simp
    rw [hnx]
    cases ps with
    | nil => exact hd
    | cons h ps2 =>
      obtain ⟨h1, h2, h3, h4⟩ := hd
      have hh : h ∉ ps2 := IsPagelist_not_mem
        (IsDList.isPagelist (h :: ps2) 0 h ⟨rfl, h2, h3, h4⟩)
      have hph : h ≠ page := fun e => hnot (e ▸ List.mem_cons_self _ _)
      subst h1
      refine ⟨rfl, h2, ?_, ?_⟩
      · rw [page_list_insert_pages s head page head hne]; simp [hph, h2]
      · have hnx2 : ((page_list_insert s head page).1.pages head).next =
            (s.pages head).next := by
          rw [page_list_insert_pages s head page head hne]; simp [hph, h2]
        rw [hnx2]
        refine IsDList_congr ps2 _ _ (fun q hq => ?_) h4
        have hq1 : q ≠ page := fun e => hnot (e ▸ List.mem_cons_of_mem _ hq)
        have hq2 : q ≠ head := fun e => hh (e ▸ hq)
        rw [page_list_insert_pages s head page q hne]
        simp [hq1, hq2]

/-- Unlinking `x` from the middle of a doubly linked list: if `g` differs from `f`
only in that the neighbours of `x` are linked to each other, the list without `x`
is a doubly linked list of `g`. -/
theorem IsDList_unlink_mid {f g : Nat → ham_page_t} (x : Nat)
    (hgp : (g (f x).previous).next = (f x).next ∧
      (g (f x).previous).previous = (f (f x).previous).previous)
    (hgn : (f x).next ≠ 0 → (g (f x).next).previous = (f x).previous ∧
      (g (f x).next).next = (f (f x).next).next)
    (hgo : ∀ q, q ≠ x → q ≠ (f x).previous → q ≠ (f x).next →
      (f q).next = (g q).next ∧ (f q).previous = (g q).previous) :
    ∀ (a b : List Nat) (prev head : Nat), a ≠ [] →
      IsDList f prev head (a ++ x :: b) → (a ++ x :: b).Nodup →
      IsDList g prev head (a ++ b)
  | [], _, _, _, hne, _, _ => absurd rfl hne
  | [y], b, prev, head, _, h, hnd => by
    obtain ⟨h1, h2, h3, h4⟩ := h
    have h4 : IsDList f y (f y).next (x :: b) := h4
    obtain ⟨k1, k2, k3, k4⟩ := h4
    have hnd2 : (y :: x :: b).Nodup := hnd
    have hyx : y ≠ x := by
      intro e; rw [e] at hnd2; simp at hnd2
    have hyb : y ∉ b := by
      intro e; simp [e] at hnd2
    have hxb : x ∉ b := by
      intro e; simp [e] at hnd2
    refine ⟨h1, h2, ?_, ?_⟩
    · rw [← k3, hgp.2, k3]; exact h3
    · have e1 : (g y).next = (f x).next := by rw [← k3]; exact hgp.1
      rw [e1]
      cases b with
      | nil => exact k4
      | cons n b2 =>
        obtain ⟨m1, m2, _, m4⟩ := k4
        have hn0 : (f x).next ≠ 0 := m1 ▸ m2
        have hnb : n ∉ b2 := by
          intro e; simp [e] at hnd2
        refine ⟨m1, m2, ?_, ?_⟩
        · rw [← m1, (hgn hn0).1, k3]
        · rw [← m1, (hgn hn0).2, m1]
          refine IsDList_congr b2 _ _ (fun q hq => ?_) m4
          have q1 : q ≠ x := fun e => hxb (e ▸ List.mem_cons_of_mem _ hq)
          have q2 : q ≠ (f x).previous := by
            rw [k3]; exact fun e => hyb (e ▸ List.mem_cons_of_mem _ hq)
          have q3 : q ≠ (f x).next := by
            rw [m1]; exact fun e => hnb (e ▸ hq)
          exact hgo q q1 q2 q3
  | y :: z :: a, b, prev, head, _, h, hnd => by
    obtain ⟨h1, h2, h3, h4⟩ := h
    have h4 : IsDList f y (f y).next ((z :: a) ++ x :: b) := h4
    have hnd2 : (y :: ((z :: a) ++ x :: b)).Nodup := hnd
    obtain ⟨hy, hnd3⟩ := List.nodup_cons.mp hnd2
    have hyx : y ≠ x := fun e => hy (by rw [e]; simp)
    have hyp : y ≠ (f x).previous := by
      intro e
      have := IsDList_prev_mem (z :: a) x b _ _ h4 (by simp)
      rw [← e] at this
      exact hy (List.mem_append_left _ this)
    have hyn : y ≠ (f x).next := by
      intro e
      rcases IsDList_next_mem (z :: a) x b _ _ h4 with hz | hm
      · exact h2 (e.trans hz)
      · rw [← e] at hm
        exact hy (List.mem_append_right _ (List.mem_cons_of_mem _ hm))
    have hg := hgo y hyx hyp hyn
    refine ⟨h1, h2, hg.2 ▸ h3, ?_⟩
    rw [← hg.1]
    exact IsDList_unlink_mid x hgp hgn hgo (z :: a) b y (f y).next (by simp) h4 hnd3

/-- The pages after `page_list_remove` of a page that is not the head and has a
predecessor. -/
theorem page_list_remove_mid_pages (s : Store) (head x q : Nat) (hx : x ≠ head)
    (hp0 : (s.pages x).previous ≠ 0) (hpx : (s.pages x).previous ≠ x)
    (hnx : (s.pages x).next ≠ x) (hpn : (s.pages x).previous ≠ (s.pages x).next) :
    (page_list_remove s head x).1.pages q =
      if q = x then { s.pages x with next := 0, previous := 0 }
      else if q = (s.pages x).previous then
        { s.pages (s.pages x).previous with next := (s.pages x).next }
      else if q = (s.pages x).next ∧ (s.pages x).next ≠ 0 then
        { s.pages (s.pages x).next with previous := (s.pages x).previous }
      else s.pages q := by
  unfold page_list_remove
  simp only [if_neg hx]
  by_cases hn0 : (s.pages x).next = 0
  · by_cases hq : q = x
    · subst hq
      simp [hn0, hp0, page_set_next, page_set_previous, Function.update, Ne.symm hpx]
    · by_cases hq2 : q = (s.pages x).previous
      · simp [hn0, hp0, hq, hq2, hpx, page_set_next, page_set_previous, Function.update]
      · simp [hn0, hp0, hq, hq2, page_set_next, page_set_previous, Function.update]
  · by_cases hq : q = x
    · subst hq
      simp [hn0, hp0, page_set_next, page_set_previous, Function.update, Ne.symm hpx,
        Ne.symm hnx]
    · by_cases hq2 : q = (s.pages x).previous
      · simp [hn0, hp0, hq, hq2, hpx, hpn, page_set_next, page_set_previous,
          Function.update]
      · by_cases hq3 : q = (s.pages x).next
        · simp [hn0, hp0, hq, hq2, hq3, hnx, Ne.symm hpn, page_set_next,
            page_set_previous, Function.update]
        · simp [hn0, hp0, hq, hq2, hq3, page_set_next, page_set_previous,
            Function.update]

/-- The pages after `page_list_remove` of the head of the list. -/
theorem page_list_remove_head_pages (s : Store) (x q : Nat) (hnx : (s.pages x).next ≠ x) :
    (page_list_remove s x x).1.pages q =
      if q = x then { s.pages x with next := 0, previous := 0 }
      else if q = (s.pages x).next ∧ (s.pages x).next ≠ 0 then
        { s.pages (s.pages x).next with previous := 0 }
      else s.pages q := by
  unfold page_list_remove
  simp only [if_true]
  by_cases hn0 : (s.pages x).next = 0
  · by_cases hq : q = x
    · subst hq
      simp [hn0, page_set_next, page_set_previous, Function.update]
    · simp [hn0, hq, page_set_next, page_set_previous, Function.update]
  · by_cases hq : q = x
    · subst hq
      simp [hn0, page_set_next, page_set_previous, Function.update, Ne.symm hnx]
    · by_cases hq3 : q = (s.pages x).next
      · simp [hn0, hq, hq3, hnx, page_set_next, page_set_previous, Function.update]
      · simp [hn0, hq, hq3, page_set_next, page_set_previous, Function.update]

theorem page_list_remove_rest (s : Store) (head x : Nat) :
    (page_list_remove s head x).1.txns = s.txns ∧
    (page_list_remove s head x).1.dbs = s.dbs ∧
    (page_list_remove s head x).1.calls = s.calls := by
  unfold page_list_remove
  by_cases h : x = head
  · subst h
    by_cases hn : (s.pages x).next = 0 <;> simp [hn, page_set_next, page_set_previous]
  · by_cases hn : (s.pages x).next = 0 <;> by_cases hp : (s.pages x).previous = 0 <;>
      simp [h, hn, hp, page_set_next, page_set_previous]

theorem page_set_next_flags (s : Store) (p n q : Nat) :
    ((page_set_next s p n).pages q).npers_flags = (s.pages q).npers_flags ∧
    ((page_set_next s p n).pages q).refcount = (s.pages q).refcount := by
  by_cases h : q = p
  · subst h; simp [page_set_next]
  · simp [page_set_next, Function.update, h]

theorem page_set_previous_flags (s : Store) (p n q : Nat) :
    ((page_set_previous s p n).pages q).npers_flags = (s.pages q).npers_flags ∧
    ((page_set_previous s p n).pages q).refcount = (s.pages q).refcount := by
  by_cases h : q = p
  · subst h; simp [page_set_previous]
  · simp [page_set_previous, Function.update, h]

theorem page_list_remove_flags (s : Store) (head x q : Nat) :
    ((page_list_remove s head x).1.pages q).npers_flags = (s.pages q).npers_flags ∧
    ((page_list_remove s head x).1.pages q).refcount = (s.pages q).refcount := by
  unfold page_list_remove
  by_cases h : x = head
  · subst h
    by_cases hn : (s.pages x).next = 0 <;>
      simp only [hn, if_true, if_false, ne_eq, not_true_eq_false, not_false_eq_true,
        (page_set_next_flags _ _ _ _).1, (page_set_next_flags _ _ _ _).2,
        (page_set_previous_flags _ _ _ _).1, (page_set_previous_flags _ _ _ _).2,
        and_self]
  · by_cases hn : (s.pages x).next = 0 <;> by_cases hp : (s.pages x).previous = 0 <;>
      simp only [h, hn, hp, if_true, if_false, ne_eq, not_true_eq_false,
        not_false_eq_true,
        (page_set_next_flags _ _ _ _).1, (page_set_next_flags _ _ _ _).2,
        (page_set_previous_flags _ _ _ _).1, (page_set_previous_flags _ _ _ _).2,
        and_self]

theorem IsDList_ne_zero {f : Nat → ham_page_t} {prev head : Nat} {ps : List Nat}
    (h : IsDList f prev head ps) : ∀ p ∈ ps, p ≠ 0 :=
  IsPagelist_ne_zero ps head (IsDList.isPagelist ps prev head h)

theorem IsDList_nodup {f : Nat → ham_page_t} {prev head : Nat} {ps : List Nat}
    (h : IsDList f prev head ps) : ps.Nodup :=
  IsPagelist_nodup ps head (IsDList.isPagelist ps prev head h)

theorem page_list_remove_head (s : Store) (head x : Nat) :
    (page_list_remove s head x).2 = if x = head then (s.pages x).next else head := by
  unfold page_list_remove
  by_cases h : x = head <;> simp [h]

/-- Removing a member of a doubly linked list leaves the list without it. -/
theorem page_list_remove_dlist (s : Store) (head x : Nat) (a b : List Nat)
    (hd : IsDList s.pages 0 head (a ++ x :: b)) :
    IsDList (page_list_remove s head x).1.pages 0 (page_list_remove s head x).2 (a ++ b) := by
  have hnd := IsDList_nodup hd
  have hnz := IsDList_ne_zero hd
  have hx0 : x ≠ 0 := hnz x (by simp)
  have hxa : x ∉ a := fun e => (List.nodup_append.mp hnd).2.2 e (List.mem_cons_self _ _)
  have hxb : x ∉ b := (List.nodup_cons.mp (List.nodup_append.mp hnd).2.1).1
  have hnx : (s.pages x).next ≠ x := by
    rcases IsDList_next_mem a x b _ _ hd with h0 | hm
    · rw [h0]; exact Ne.symm hx0
    · exact fun e => hxb (e ▸ hm)
  cases a with
  | nil =>
    obtain ⟨h1, _, _, h4⟩ := hd
    subst h1
    rw [page_list_remove_head, if_pos rfl]
    show IsDList _ 0 (s.pages head).next b
    cases b with
    | nil => exact h4
    | cons n b2 =>
      obtain ⟨m1, m2, _, m4⟩ := h4
      have hn0 : (s.pages head).next ≠ 0 := m1 ▸ m2
      have hnh : n ≠ head := fun e => hxb (e ▸ List.mem_cons_self _ _)
      have hnb : n ∉ b2 := (List.nodup_cons.mp (List.nodup_cons.mp hnd).2).1
      refine ⟨m1, m2, ?_, ?_⟩
      · rw [page_list_remove_head_pages s head n hnx]
        simp [hnh, m1, m2]
      · have e1 : ((page_list_remove s head head).1.pages n).next = (s.pages n).next := by
          rw [page_list_remove_head_pages s head n hnx]
          simp [hnh, m1, m2]
        rw [e1]
        refine IsDList_congr b2 _ _ (fun q hq => ?_) m4
        have q1 : q ≠ head := fun e => hxb (e ▸ List.mem_cons_of_mem _ hq)
        have q2 : q ≠ n := fun e => hnb (e ▸ hq)
        rw [page_list_remove_head_pages s head q hnx]
        simp [q1, q2, m1]
  | cons y a2 =>
    have hy : head = y := hd.1
    have hxy : x ≠ head := by
      rw [hy]; exact fun e => hxa (e ▸ List.mem_cons_self _ _)
    have hpm : (s.pages x).previous ∈ y :: a2 :=
      IsDList_prev_mem (y :: a2) x b 0 head hd (by simp)
    have hp0 : (s.pages x).previous ≠ 0 := hnz _ (List.mem_append_left _ hpm)
    have hpx : (s.pages x).previous ≠ x := fun e => hxa (e ▸ hpm)
    have hpn : (s.pages x).previous ≠ (s.pages x).next := by
      rcases IsDList_next_mem (y :: a2) x b _ _ hd with h0 | hm
      · rw [h0]; exact hp0
      · intro e
        rw [← e] at hm
        exact (List.nodup_append.mp hnd).2.2 hpm (List.mem_cons_of_mem _ hm)
    rw [page_list_remove_head, if_neg hxy]
    refine IsDList_unlink_mid x ?_ ?_ ?_ (y :: a2) b 0 head (by simp) hd hnd
    · rw [page_list_remove_mid_pages s head x _ hxy hp0 hpx hnx hpn]
      simp [hpx]
    · intro hn0
      rw [page_list_remove_mid_pages s head x _ hxy hp0 hpx hnx hpn]
      simp [hnx, Ne.symm hpn, hn0]
    · intro q q1 q2 q3
      rw [page_list_remove_mid_pages s head x _ hxy hp0 hpx hnx hpn]
      simp [q1, q2, q3]

theorem unlink_release_flags (s : Store) (p q : Nat) :
    ((unlink_release s p).pages q).npers_flags = (s.pages q).npers_flags := by
  rw [unlink_release_pages]
  by_cases h : q = p
  · subst h; simp [released]
  · simp [h]

/-- The loop of `ham_txn_abort` changes no page's flags. -/
theorem abort_loop_flags :
    ∀ (fuel : Nat) (s : Store) (head : Nat) (s2 : Store),
      abort_loop fuel s head = some s2 →
      ∀ p, (s2.pages p).npers_flags = (s.pages p).npers_flags
  | 0, s, head, s2, h, p => by
    simp only [abort_loop] at h
    split_ifs at h
    simp only [Option.some.injEq] at h
    rw [← h]
  | fuel + 1, s, head, s2, h, p => by
    simp only [abort_loop] at h
    split_ifs at h
    · simp only [Option.some.injEq] at h
      rw [← h]
    · rw [abort_loop_flags fuel _ _ s2 h p]
      exact unlink_release_flags s head p

/-- The function `ham_txn_abort` returns success, empties the pagelist and changes
no page's flags, whatever the store. -/
theorem ham_txn_abort_flags (fuel : Nat) (s : Store) (txn : Nat) (s2 : Store)
    (st : ham_status_t) (h : ham_txn_abort fuel s txn = some (s2, st)) :
    st = 0 ∧ (s2.txns txn).pagelist = 0 ∧
      ∀ p, (s2.pages p).npers_flags = (s.pages p).npers_flags := by
  simp only [ham_txn_abort] at h
  split at h
  · simp at h
  · rename_i s3 heq
    simp only [Option.some.injEq, Prod.mk.injEq] at h
    obtain ⟨h1, h2⟩ := h
    subst h1
    refine ⟨h2.symm, by simp [txn_set_pagelist], fun p => ?_⟩
    exact abort_loop_flags fuel _ _ s3 heq p

theorem page_list_insert_flags (s : Store) (head page q : Nat) :
    ((page_list_insert s head page).1.pages q).npers_flags = (s.pages q).npers_flags := by
  unfold page_list_insert
  by_cases h : head = 0 <;>
    simp only [h, if_true, if_false, (page_set_next_flags _ _ _ _).1,
      (page_set_previous_flags _ _ _ _).1]

theorem in_pagelist_iff {s : Store} {txn : Nat} {ps : List Nat}
    (h : IsPagelist s.pages (s.txns txn).pagelist ps) (p : Nat) :
    in_pagelist s txn p ↔ p ∈ ps := by
  constructor
  · rintro ⟨ps2, h2, hp⟩
    rw [IsPagelist_unique _ _ _ h h2]; exact hp
  · exact fun hp => ⟨ps, h, hp⟩

theorem store0_not_delete_pending (rc : Int) (p : Nat) :
    ¬ delete_pending ((store0 rc 0).pages p) := by
  show ¬ ((0 : Nat) &&& PAGE_NPERS_DELETE_PENDING ≠ 0)
  decide

theorem not_in_pagelist_of_empty (s : Store) (txn p : Nat)
    (h : (s.txns txn).pagelist = 0) : ¬ in_pagelist s txn p := by
  have hl : IsPagelist s.pages (s.txns txn).pagelist [] := h
  rw [in_pagelist_iff hl]
  simp

theorem txn_free_page_in_pagelist (s : Store) (txn page p : Nat) :
    in_pagelist (txn_free_page s txn page).1 txn p ↔ in_pagelist s txn p := by
  have hn : ∀ q, ((txn_free_page s txn page).1.pages q).next = (s.pages q).next := by
    intro q
    by_cases hq : q = page <;>
      simp [txn_free_page, page_set_npers_flags, Function.update, hq]
  constructor
  · rintro ⟨ps, h, hp⟩
    exact ⟨ps, IsPagelist_congr ps _ (fun q _ => hn q) h, hp⟩
  · rintro ⟨ps, h, hp⟩
    exact ⟨ps, IsPagelist_congr ps _ (fun q _ => (hn q).symm) h, hp⟩

theorem txn_free_page_sets_flag (s : Store) (txn page : Nat) :
    delete_pending ((txn_free_page s txn page).1.pages page) := by
  have : ((txn_free_page s txn page).1.pages page).npers_flags =
      (s.pages page).npers_flags ||| PAGE_NPERS_DELETE_PENDING := by
    simp [txn_free_page, page_set_npers_flags]
  unfold delete_pending
  rw [this]
  exact delete_pending_set _

/-- C5, the code at a failing input.  In `store0 0 0` transaction `1` is empty and
no page carries DELETE_PENDING.  `txn_add_page(1, 7)` puts page `7` in the
pagelist and `txn_free_page(1, 7)` sets DELETE_PENDING on it, the page still being
in the pagelist.  `ham_txn_abort(1)` then returns 0 and empties the pagelist, and
page `7`, which has left the pagelist, still carries DELETE_PENDING.  When page
`7` is afterwards only added again by `txn_add_page(1, 7)` and the transaction is
committed, every call succeeding, the commit returns 0 and its one call is
`db_free_page(7, DB_MOVE_TO_FREELIST)`: the deletion that was aborted is carried
out. -/
theorem C5_abort_leaves_delete_pending_on_the_released_page :
    ((store0 0 0).txns 1).pagelist = 0 ∧
    (∀ p, ¬ delete_pending ((store0 0 0).pages p)) ∧
    (txn_add_page 1 (store0 0 0) 1 7 true).map (fun r =>
      (r.2, (r.1.txns 1).pagelist, (txn_free_page r.1 1 7).2,
        ((txn_free_page r.1 1 7).1.txns 1).pagelist,
        decide (IsPagelist (txn_free_page r.1 1 7).1.pages 7 [7]),
        decide (delete_pending ((txn_free_page r.1 1 7).1.pages 7)))) =
      some (0, 7, 0, 7, true, true) ∧
    ((txn_add_page 1 (store0 0 0) 1 7 true).bind (fun r =>
      ham_txn_abort 1 (txn_free_page r.1 1 7).1 1)).map (fun a =>
        (a.2, (a.1.txns 1).pagelist, decide (delete_pending (a.1.pages 7)))) =
      some (0, 0, true) ∧
    ((((txn_add_page 1 (store0 0 0) 1 7 true).bind (fun r =>
      ham_txn_abort 1 (txn_free_page r.1 1 7).1 1)).bind (fun a =>
        txn_add_page 1 a.1 1 7 true)).bind (fun b =>
          ham_txn_commit dev_ok 1 b.1 1 0)).map (fun c => (c.2, c.1.calls)) =
      some (0, [Call.free_page 7 DB_MOVE_TO_FREELIST]) :=
  ⟨rfl, store0_not_delete_pending 0, by decide, by decide, by decide⟩

/-! ## Theorems about txn_remote.cc -/

/-- C6, the code at a failing input: the server answers the begin of a transaction
with status 0 and handle 7.  The constructor succeeds and the new transaction,
also as `RemoteTransactionManager::begin` appends it to an empty manager, already
has `is_committed()`, although neither commit nor abort has been called on it. -/
theorem C6_begin_leaves_transaction_committed :
    RemoteTransaction.new 1 0 { status := 0, txn_handle := 7 } =
      Except.ok { id := 1, m_flags := kStateCommitted, m_remote_handle := 7 } ∧
    RemoteTransactionManager.begin { txns := [] } 1 0 { status := 0, txn_handle := 7 } =
      Except.ok (1, { txns := [{ id := 1, m_flags := kStateCommitted, m_remote_handle := 7 }] }) ∧
    Transaction.is_committed { id := 1, m_flags := kStateCommitted, m_remote_handle := 7 } = true ∧
    Transaction.is_aborted { id := 1, m_flags := kStateCommitted, m_remote_handle := 7 } = false := by
  refine ⟨rfl, rfl, by decide, by decide⟩

/-- C7, the code at a failing input: a transaction with no state bit set, and the
transaction a successful begin has made.  A commit answered with status 0 leaves
the first marked Aborted and not Committed, and the second marked Aborted as well
as Committed; an abort answered with status 0 changes neither, so the first is not
marked Aborted and the second is still marked Committed. -/
theorem C7_commit_marks_aborted_and_abort_marks_nothing :
    (∃ t, RemoteTransaction.commit { id := 1, m_flags := 0, m_remote_handle := 7 } 0 =
        Except.ok t ∧ t.is_aborted = true ∧ t.is_committed = false) ∧
    (∃ t, RemoteTransaction.abort { id := 1, m_flags := 0, m_remote_handle := 7 } 0 =
        Except.ok t ∧ t.is_aborted = false ∧ t.is_committed = false) ∧
    (∃ t0 t, RemoteTransaction.new 1 0 { status := 0, txn_handle := 7 } = Except.ok t0 ∧
        RemoteTransaction.commit t0 0 = Except.ok t ∧
        t.is_aborted = true ∧ t.is_committed = true) ∧
    (∃ t0 t, RemoteTransaction.new 1 0 { status := 0, txn_handle := 7 } = Except.ok t0 ∧
        RemoteTransaction.abort t0 0 = Except.ok t ∧
        t.is_aborted = false ∧ t.is_committed = true) := by
  refine ⟨⟨_, rfl, by decide, by decide⟩, ⟨_, rfl, by decide, by decide⟩,
    ⟨_, _, rfl, rfl, by decide, by decide⟩, ⟨_, _, rfl, rfl, by decide, by decide⟩⟩

theorem flush_committed_loop_eq_dropWhile :
    ∀ l : List Transaction, flush_committed_loop l = l.dropWhile Transaction.terminal
  | [] => rfl
  | t :: rest => by
    by_cases h : Transaction.terminal t = true
    · have h2 : (t.is_committed || t.is_aborted) = true := h
      rw [flush_committed_loop, if_pos h2, List.dropWhile_cons_of_pos h]
      exact flush_committed_loop_eq_dropWhile rest
    · have h2 : ¬ (t.is_committed || t.is_aborted) = true := h
      rw [flush_committed_loop, if_neg h2, List.dropWhile_cons_of_neg h]

/-- C8: `flush_committed_txns` is total, and on every list it removes exactly the
longest prefix of transactions that are committed or aborted: the old list is a
prefix of terminal transactions followed by the new list, the head of the new list,
if any, is neither committed nor aborted, and a list that has a non-terminal
transaction `t` behind terminal ones is cut back to `t` and everything behind it,
terminal or not. -/
theorem C8_flush_removes_longest_terminal_head_run (m : RemoteTransactionManager) :
    (∃ pre, m.txns = pre ++ m.flush_committed_txns.txns ∧
      ∀ t ∈ pre, (t.is_committed || t.is_aborted) = true) ∧
    (∀ t, m.flush_committed_txns.txns.head? = some t →
      t.is_committed = false ∧ t.is_aborted = false) ∧
    (∀ pre t rest, m.txns = pre ++ t :: rest →
      (∀ x ∈ pre, (x.is_committed || x.is_aborted) = true) →
      t.is_committed = false → t.is_aborted = false →
      m.flush_committed_txns.txns = t :: rest) := by
  have hd : m.flush_committed_txns.txns = m.txns.dropWhile Transaction.terminal :=
    flush_committed_loop_eq_dropWhile m.txns
  refine ⟨⟨m.txns.takeWhile Transaction.terminal, ?_, ?_⟩, ?_, ?_⟩
  · rw [hd, List.takeWhile_append_dropWhile]
  · intro t ht
    have : Transaction.terminal t = true := List.mem_takeWhile_imp ht
    exact this
  · intro t ht
    rw [hd] at ht
    have := List.head?_dropWhile_not Transaction.terminal m.txns
    rw [ht] at this
    simpa [Transaction.terminal] using this
  · intro pre t rest hm hpre hc ha
    rw [hd, hm]
    have ht : ¬ (Transaction.terminal t = true) := by simp [Transaction.terminal, hc, ha]
    have hpre2 : ∀ x ∈ pre, Transaction.terminal x = true := hpre
    rw [List.dropWhile_append_of_pos hpre2, List.dropWhile_cons_of_neg ht]

/-- The claim C8 on a list of three: an aborted transaction, an active one, and a
committed one behind it. -/
theorem C8_witness :
    RemoteTransactionManager.flush_committed_txns
      { txns := [{ id := 1, m_flags := kStateAborted, m_remote_handle := 7 },
                 { id := 2, m_flags := 0, m_remote_handle := 8 },
                 { id := 3, m_flags := kStateCommitted, m_remote_handle := 9 }] } =
      { txns := [{ id := 2, m_flags := 0, m_remote_handle := 8 },
                 { id := 3, m_flags := kStateCommitted, m_remote_handle := 9 }] } :=
  congrArg RemoteTransactionManager.mk
    ((C8_flush_removes_longest_terminal_head_run
      { txns := [{ id := 1, m_flags := kStateAborted, m_remote_handle := 7 },
                 { id := 2, m_flags := 0, m_remote_handle := 8 },
                 { id := 3, m_flags := kStateCommitted, m_remote_handle := 9 }] }).2.2
      [{ id := 1, m_flags := kStateAborted, m_remote_handle := 7 }]
      { id := 2, m_flags := 0, m_remote_handle := 8 }
      [{ id := 3, m_flags := kStateCommitted, m_remote_handle := 9 }]
      rfl (by decide) (by decide) (by decide))

/-- C9, the code at a failing input: T1 and T2 are begun in this order on an empty
manager and T2 is committed through the manager, every reply of the server having
status 0.  After the two begins the list holds T1 and T2; after the commit of T2
the list is empty: T1, on which neither commit nor abort was called, has been
reclaimed. -/
theorem C9_uncommitted_transaction_is_reclaimed :
    ∃ m1 m2 m3,
      RemoteTransactionManager.begin { txns := [] } 1 0 { status := 0, txn_handle := 7 } =
        Except.ok (1, m1) ∧
      RemoteTransactionManager.begin m1 2 0 { status := 0, txn_handle := 8 } =
        Except.ok (2, m2) ∧
      m2.txns.map Transaction.id = [1, 2] ∧
      RemoteTransactionManager.commit m2 2 0 = Except.ok m3 ∧
      m3.txns = [] :=
  ⟨_, _, _, rfl, rfl, by decide, rfl, by decide⟩

/-! ## Theorems about page_manager.h -/

/-- C10: `PageManager::get_freelist(db)` returns the database's reduced freelist
when `db` is not null and has one, creating nothing and leaving the page manager
as it is; otherwise the full freelist that exists already, if there is one;
otherwise a newly created full freelist, stored in `m_freelist`, when the
environment has neither `HAM_IN_MEMORY` nor `HAM_READ_ONLY`; otherwise null, with
`m_freelist` left null.  A second call with the same arguments returns the same
freelist and leaves the page manager as the first call left it. -/
theorem C10_get_freelist_selection (pm : PageManager) (db : Option Database) :
    (∀ r, reduced_of db = some r →
      pm.get_freelist db = (some (Freelist.reduced r), pm)) ∧
    (∀ f, reduced_of db = none → pm.m_freelist = some f →
      pm.get_freelist db = (some (Freelist.full f), pm)) ∧
    (reduced_of db = none → pm.m_freelist = none →
      pm.m_env.flags &&& HAM_IN_MEMORY = 0 → pm.m_env.flags &&& HAM_READ_ONLY = 0 →
      pm.get_freelist db =
        (some (Freelist.full { env := pm.m_env, serial := pm.created }),
          { pm with m_freelist := some { env := pm.m_env, serial := pm.created },
                    created := pm.created + 1 })) ∧
    (reduced_of db = none → pm.m_freelist = none →
      (pm.m_env.flags &&& HAM_IN_MEMORY ≠ 0 ∨ pm.m_env.flags &&& HAM_READ_ONLY ≠ 0) →
      pm.get_freelist db = (none, pm)) ∧
    (pm.get_freelist db).2.get_freelist db = pm.get_freelist db := by
  cases hr : reduced_of db with
  | some r =>
    have h1 : pm.get_freelist db = (some (Freelist.reduced r), pm) := by
      cases db with
      | none => simp [reduced_of] at hr
      | some d =>
        simp only [reduced_of] at hr
        simp [PageManager.get_freelist, hr]
    refine ⟨fun r2 h2 => ?_, fun f h2 => by simp at h2, fun h2 => by simp at h2,
      fun h2 => by simp at h2, ?_⟩
    · simp only [Option.some.injEq] at h2
      rw [← h2]; exact h1
    · rw [h1]; exact h1
  | none =>
    have h0 : ∀ pm2 : PageManager, pm2.get_freelist db =
        ((if pm2.m_freelist = none ∧ pm2.m_env.flags &&& HAM_IN_MEMORY = 0 ∧
              pm2.m_env.flags &&& HAM_READ_ONLY = 0 then
            { pm2 with m_freelist := some { env := pm2.m_env, serial := pm2.created },
                       created := pm2.created + 1 }
          else pm2).m_freelist.map Freelist.full,
         if pm2.m_freelist = none ∧ pm2.m_env.flags &&& HAM_IN_MEMORY = 0 ∧
              pm2.m_env.flags &&& HAM_READ_ONLY = 0 then
            { pm2 with m_freelist := some { env := pm2.m_env, serial := pm2.created },
                       created := pm2.created + 1 }
          else pm2) := by
      intro pm2
      cases db with
      | none => simp [PageManager.get_freelist]
      | some d =>
        simp only [reduced_of] at hr
        simp [PageManager.get_freelist, hr]
    refine ⟨fun r h2 => by simp at h2, fun f _ hf => ?_, fun _ hf h1 h2 => ?_,
      fun _ hf h12 => ?_, ?_⟩
    · rw [h0]; simp [hf]
    · rw [h0]; simp [hf, h1, h2]
    · rw [h0]
      rcases h12 with h | h <;> simp [hf, h]
    · rw [h0 pm]
      by_cases hc : pm.m_freelist = none ∧ pm.m_env.flags &&& HAM_IN_MEMORY = 0 ∧
          pm.m_env.flags &&& HAM_READ_ONLY = 0
      · simp only [if_pos hc]
        rw [h0]
        simp
      · simp only [if_neg hc]
        rw [h0]
        simp only [if_neg hc]

/-- The claim C10 on a page manager without a full freelist, for a database without
a reduced freelist: in a plain environment the full freelist is created, in an
in-memory environment the result is null. -/
theorem C10_witness :
    PageManager.get_freelist { m_env := { flags := 0 }, m_freelist := none, created := 0 }
        (some { reduced_freelist := none }) =
      (some (Freelist.full { env := { flags := 0 }, serial := 0 }),
        { m_env := { flags := 0 },
          m_freelist := some { env := { flags := 0 }, serial := 0 }, created := 1 }) ∧
    PageManager.get_freelist
        { m_env := { flags := HAM_IN_MEMORY }, m_freelist := none, created := 0 }
        (some { reduced_freelist := none }) =
      (none, { m_env := { flags := HAM_IN_MEMORY }, m_freelist := none, created := 0 }) :=
  ⟨(C10_get_freelist_selection
      { m_env := { flags := 0 }, m_freelist := none, created := 0 }
      (some { reduced_freelist := none })).2.2.1 rfl rfl (by decide) (by decide),
   (C10_get_freelist_selection
      { m_env := { flags := HAM_IN_MEMORY }, m_freelist := none, created := 0 }
      (some { reduced_freelist := none })).2.2.2.1 rfl rfl (Or.inl (by decide))⟩

/-! ## txn_add_page, txn_free_page and txn_remove_page -/

/-- On a well-formed list that holds no page with the address, the loop of
`txn_get_page` ends with the null pointer. -/
theorem txn_get_page_loop_not_found (address start : Nat) (s : Store) :
    ∀ (l : List Nat) (fuel p : Nat), IsPagelist s.pages p l →
      (∀ q ∈ l, (s.pages q).self ≠ address) → l.length ≤ fuel →
      txn_get_page_loop address start fuel s p = some 0
  | [], fuel, p, h, _, _ => by
    have h0 : p = 0 := h
    cases fuel <;> simp [txn_get_page_loop, h0]
  | q :: l, 0, p, _, _, hf => by simp at hf
  | q :: l, fuel + 1, p, h, hne, hf => by
    obtain ⟨h1, h2, h3⟩ := h
    subst h1
    have hq : (s.pages p).self ≠ address := hne p (List.mem_cons_self _ _)
    have ih := txn_get_page_loop_not_found address start s l fuel (s.pages p).next h3
      (fun q hq => hne q (List.mem_cons_of_mem _ hq)) (by simpa using hf)
    simp only [txn_get_page_loop, if_neg h2, if_neg hq]
    split_ifs
    · rfl
    · exact ih

/-- On a well-formed list that holds a page with the address, the loop of
`txn_get_page` ends with a page of the list that has this address. -/
theorem txn_get_page_loop_found (address start : Nat) (s : Store) :
    ∀ (l : List Nat) (fuel p : Nat), IsPagelist s.pages p l →
      (∃ q ∈ l, (s.pages q).self = address) → start ∉ l.tail → l.length ≤ fuel →
      ∃ f, txn_get_page_loop address start fuel s p = some f ∧ f ≠ 0 ∧ f ∈ l ∧
        (s.pages f).self = address
  | [], _, _, _, hex, _, _ => by
    obtain ⟨q, hq, _⟩ := hex
    simp at hq
  | q :: l, 0, p, _, _, _, hf => by simp at hf
  | q :: l, fuel + 1, p, h, hex, hst, hf => by
    obtain ⟨h1, h2, h3⟩ := h
    subst h1
    by_cases hq : (s.pages p).self = address
    · refine ⟨p, ?_, h2, List.mem_cons_self _ _, hq⟩
      simp [txn_get_page_loop, h2, hq]
    · have hex2 : ∃ q ∈ l, (s.pages q).self = address := by
        obtain ⟨q, hq1, hq2⟩ := hex
        rcases List.mem_cons.mp hq1 with e | e
        · exact absurd (e ▸ hq2) hq
        · exact ⟨q, e, hq2⟩
      have hst1 : start ∉ l := hst
      have hnx : start ≠ (s.pages p).next := by
        cases l with
        | nil =>
          obtain ⟨q, hq1, _⟩ := hex2
          simp at hq1
        | cons n l2 =>
          have : (s.pages p).next = n := h3.1
          rw [this]
          exact fun e => hst1 (e ▸ List.mem_cons_self _ _)
      have hst2 : start ∉ l.tail := fun e => hst1 (List.mem_of_mem_tail e)
      obtain ⟨f, g1, g2, g3, g4⟩ := txn_get_page_loop_found address start s l fuel
        (s.pages p).next h3 hex2 hst2 (by simpa using hf)
      refine ⟨f, ?_, g2, List.mem_cons_of_mem _ g3, g4⟩
      simp only [txn_get_page_loop, if_neg h2, if_neg hq, if_neg hnx]
      exact g1

/-- When no page of the pagelist has the address, `txn_get_page` returns null. -/
theorem txn_get_page_not_found (fuel : Nat) (s : Store) (txn address : Nat) (ps : List Nat)
    (hl : IsPagelist s.pages (s.txns txn).pagelist ps)
    (hne : ∀ q ∈ ps, (s.pages q).self ≠ address) (hf : ps.length ≤ fuel) :
    txn_get_page fuel s txn address = some 0 :=
  txn_get_page_loop_not_found address _ s ps fuel _ hl hne hf

/-- When a page of the pagelist has the address, `txn_get_page` returns such a
page. -/
theorem txn_get_page_found (fuel : Nat) (s : Store) (txn address : Nat) (ps : List Nat)
    (hl : IsPagelist s.pages (s.txns txn).pagelist ps)
    (hex : ∃ q ∈ ps, (s.pages q).self = address) (hf : ps.length ≤ fuel) :
    ∃ f, txn_get_page fuel s txn address = some f ∧ f ≠ 0 ∧ f ∈ ps ∧
      (s.pages f).self = address := by
  refine txn_get_page_loop_found address _ s ps fuel _ hl hex ?_ hf
  cases ps with
  | nil => simp
  | cons q l =>
    have hq : q ∉ l := IsPagelist_not_mem hl
    rw [hl.1]
    exact hq

/-- Inserting a page that is not null and not in the list puts it in front of the
list of next links. -/
theorem page_list_insert_pagelist (s : Store) (head page : Nat) (ps : List Nat)
    (hl : IsPagelist s.pages head ps) (hp : page ≠ 0) (hnot : page ∉ ps) :
    IsPagelist (page_list_insert s head page).1.pages page (page :: ps) := by
  have hne : head ≠ page := by
    cases ps with
    | nil => exact fun e => hp (e ▸ hl)
    | cons h ps2 => exact fun e => hnot (by rw [← e, hl.1]; exact List.mem_cons_self _ _)
  refine ⟨rfl, hp, ?_⟩
  have hnx : ((page_list_insert s head page).1.pages page).next = head := by
    rw [page_list_insert_pages s head page page hne]; simp
  rw [hnx]
  refine IsPagelist_congr ps head (fun q hq => ?_) hl
  have hq1 : q ≠ page := fun e => hnot (e ▸ hq)
  rw [page_list_insert_pages s head page q hne]
  by_cases hq2 : q = head ∧ head ≠ 0
  · simp [hq2, hq2.1, hne]
  · simp [hq1, hq2]

theorem page_list_insert_refcount (s : Store) (head page q : Nat) :
    ((page_list_insert s head page).1.pages q).refcount = (s.pages q).refcount := by
  unfold page_list_insert
  by_cases h : head = 0 <;>
    simp only [h, if_true, if_false, (page_set_next_flags _ _ _ _).2,
      (page_set_previous_flags _ _ _ _).2]

/-- When `txn_get_page` is not called or finds nothing, `txn_add_page` inserts. -/
theorem txn_add_page_inserts (fuel : Nat) (s : Store) (txn page : Nat) (ign : Bool)
    (h : ign = true → txn_get_page fuel s txn (s.pages page).self = some 0) :
    txn_add_page fuel s txn page ign = some (add_result s txn page, 0) := by
  cases ign with
  | false => simp [txn_add_page, add_result]
  | true => simp [txn_add_page, add_result, h rfl]

/-- C11: for a transaction with the well-formed pagelist `ps` and a page `p` (not
the null pointer) whose address no page of `ps` has, `txn_add_page(txn, p, flag)`
with either value of the flag returns success, increases the refcount of `p` by
exactly 1 and changes no other refcount, makes `p` the head of the pagelist and
leaves `ps`, in its order, as the rest of the list (also as a doubly linked list,
if it was one). -/
theorem C11_add_page_prepends_and_adds_one_reference (fuel : Nat) (s : Store)
    (txn p : Nat) (ignore_if_inserted : Bool) (ps : List Nat)
    (hl : IsPagelist s.pages (s.txns txn).pagelist ps) (hp : p ≠ 0)
    (haddr : ∀ q ∈ ps, (s.pages q).self ≠ (s.pages p).self) (hf : ps.length ≤ fuel) :
    ∃ s', txn_add_page fuel s txn p ignore_if_inserted = some (s', 0) ∧
      (s'.pages p).refcount = (s.pages p).refcount + 1 ∧
      (∀ q, q ≠ p → (s'.pages q).refcount = (s.pages q).refcount) ∧
      (s'.txns txn).pagelist = p ∧
      IsPagelist s'.pages (s'.txns txn).pagelist (p :: ps) ∧
      (IsDList s.pages 0 (s.txns txn).pagelist ps →
        IsDList s'.pages 0 (s'.txns txn).pagelist (p :: ps)) := by
  have hnot : p ∉ ps := fun e => haddr p e rfl
  have hins := txn_add_page_inserts fuel s txn p ignore_if_inserted
    (fun _ => txn_get_page_not_found fuel s txn _ ps hl haddr hf)
  have hhead : ((add_result s txn p).txns txn).pagelist = p := by
    simp [add_result, txn_set_pagelist, page_list_insert_head]
  have hl1 : IsPagelist (page_add_ref s p).pages (s.txns txn).pagelist ps := by
    refine IsPagelist_congr ps _ (fun q _ => ?_) hl
    by_cases hq : q = p <;> simp [page_add_ref, Function.update, hq]
  refine ⟨_, hins, ?_, ?_, hhead, ?_, ?_⟩
  · show ((page_list_insert (page_add_ref s p) _ p).1.pages p).refcount = _
    rw [page_list_insert_refcount]
    simp [page_add_ref]
  · intro q hq
    show ((page_list_insert (page_add_ref s p) _ p).1.pages q).refcount = _
    rw [page_list_insert_refcount]
    simp [page_add_ref, Function.update, hq]
  · rw [hhead]
    exact page_list_insert_pagelist (page_add_ref s p) (s.txns txn).pagelist p ps hl1 hp hnot
  · intro hd
    rw [hhead]
    have hd1 : IsDList (page_add_ref s p).pages 0 (s.txns txn).pagelist ps := by
      refine IsDList_congr ps _ _ (fun q _ => ?_) hd
      by_cases hq : q = p <;> simp [page_add_ref, Function.update, hq]
    exact page_list_insert_dlist (page_add_ref s p) (s.txns txn).pagelist p ps hd1 hp hnot

/-- The claim C11 at the pagelist `1, 2, 3` of `store123` and page `7`, with the
flag set. -/
theorem C11_witness :
    ∃ s', txn_add_page 3 store123 1 7 true = some (s', 0) ∧
      (s'.pages 7).refcount = (store123.pages 7).refcount + 1 ∧
      (∀ q, q ≠ 7 → (s'.pages q).refcount = (store123.pages q).refcount) ∧
      (s'.txns 1).pagelist = 7 ∧
      IsPagelist s'.pages (s'.txns 1).pagelist [7, 1, 2, 3] ∧
      (IsDList store123.pages 0 (store123.txns 1).pagelist [1, 2, 3] →
        IsDList s'.pages 0 (s'.txns 1).pagelist [7, 1, 2, 3]) :=
  C11_add_page_prepends_and_adds_one_reference 3 store123 1 7 true [1, 2, 3]
    (by decide) (by decide) (by decide) (by decide)

/-- C12: for a transaction with the well-formed pagelist `ps` and a page `p` such
that a page of `ps` has the address of `p`, `txn_add_page(txn, p, true)` returns
success and the store it leaves is the store it was given: the pagelist and every
page's refcount, flags and links are the same as before the call. -/
theorem C12_add_page_of_present_address_changes_nothing (fuel : Nat) (s : Store)
    (txn p : Nat) (ps : List Nat)
    (hl : IsPagelist s.pages (s.txns txn).pagelist ps)
    (hin : ∃ q ∈ ps, (s.pages q).self = (s.pages p).self) (hf : ps.length ≤ fuel) :
    txn_add_page fuel s txn p true = some (s, 0) := by
  obtain ⟨f, h1, h2, _, _⟩ := txn_get_page_found fuel s txn _ ps hl hin hf
  simp [txn_add_page, h1, h2]

/-- The claim C12 at the pagelist `1, 2, 3` of `store123` and its page `2`. -/
theorem C12_witness : txn_add_page 3 store123 1 2 true = some (store123, 0) :=
  C12_add_page_of_present_address_changes_nothing 3 store123 1 2 [1, 2, 3]
    (by decide) ⟨2, by decide, rfl⟩ (by decide)

/-- C13: `txn_free_page(txn, p)` returns success and leaves `p` with DELETE_PENDING
set, every flag bit outside DELETE_PENDING as it was, and the refcount, the dirty
bit, the address and the links of `p` unchanged; every other page, every
transaction (so the pagelist: `p` is in it exactly if it was) and every database
are unchanged, and no call to `db_flush_page` or `db_free_page` is made.  This
holds for every page, with or without DELETE_PENDING before the call. -/
theorem C13_free_page_only_sets_delete_pending (s : Store) (txn p : Nat) :
    (txn_free_page s txn p).2 = 0 ∧
    delete_pending ((txn_free_page s txn p).1.pages p) ∧
    (∀ mask, PAGE_NPERS_DELETE_PENDING &&& mask = 0 →
      ((txn_free_page s txn p).1.pages p).npers_flags &&& mask =
        (s.pages p).npers_flags &&& mask) ∧
    ((txn_free_page s txn p).1.pages p).refcount = (s.pages p).refcount ∧
    ((txn_free_page s txn p).1.pages p).dirty = (s.pages p).dirty ∧
    ((txn_free_page s txn p).1.pages p).self = (s.pages p).self ∧
    ((txn_free_page s txn p).1.pages p).next = (s.pages p).next ∧
    ((txn_free_page s txn p).1.pages p).previous = (s.pages p).previous ∧
    (∀ q, q ≠ p → (txn_free_page s txn p).1.pages q = s.pages q) ∧
    (txn_free_page s txn p).1.txns = s.txns ∧
    (txn_free_page s txn p).1.dbs = s.dbs ∧
    (∀ ps, IsPagelist (txn_free_page s txn p).1.pages
        ((txn_free_page s txn p).1.txns txn).pagelist ps ↔
      IsPagelist s.pages (s.txns txn).pagelist ps) ∧
    (in_pagelist (txn_free_page s txn p).1 txn p ↔ in_pagelist s txn p) ∧
    (txn_free_page s txn p).1.calls = s.calls := by
  have hn : ∀ q, ((txn_free_page s txn p).1.pages q).next = (s.pages q).next := by
    intro q
    by_cases hq : q = p <;> simp [txn_free_page, page_set_npers_flags, Function.update, hq]
  refine ⟨rfl, txn_free_page_sets_flag s txn p, ?_, ?_, ?_, ?_, ?_, ?_, ?_, rfl, rfl, ?_,
    txn_free_page_in_pagelist s txn p p, rfl⟩
  · intro mask hm
    have e : ((txn_free_page s txn p).1.pages p).npers_flags =
        (s.pages p).npers_flags ||| PAGE_NPERS_DELETE_PENDING := by
      simp [txn_free_page, page_set_npers_flags]
    rw [e, Nat.and_distrib_right, hm, Nat.or_zero]
  · simp [txn_free_page, page_set_npers_flags]
  · simp [txn_free_page, page_set_npers_flags]
  · simp [txn_free_page, page_set_npers_flags]
  · simp [txn_free_page, page_set_npers_flags]
  · simp [txn_free_page, page_set_npers_flags]
  · intro q hq
    simp [txn_free_page, page_set_npers_flags, Function.update, hq]
  · intro ps
    constructor
    · exact fun h => IsPagelist_congr ps _ (fun q _ => hn q) h
    · exact fun h => IsPagelist_congr ps _ (fun q _ => (hn q).symm) h

/-- The claim C13 at page `2` of `store123`, with the flag bit 4 set beforehand. -/
theorem C13_witness :
    ¬ delete_pending ((page_set_npers_flags store123 2 4).pages 2) ∧
    delete_pending ((txn_free_page (page_set_npers_flags store123 2 4) 1 2).1.pages 2) ∧
    ((txn_free_page (page_set_npers_flags store123 2 4) 1 2).1.pages 2).npers_flags &&& 4 =
      ((page_set_npers_flags store123 2 4).pages 2).npers_flags &&& 4 :=
  ⟨by decide,
    (C13_free_page_only_sets_delete_pending (page_set_npers_flags store123 2 4) 1 2).2.1,
    (C13_free_page_only_sets_delete_pending (page_set_npers_flags store123 2 4) 1 2).2.2.1
      4 (by decide)⟩

/-- The pages `txn_add_page` leaves when it inserts a page that is not the head. -/
theorem add_result_pages (s : Store) (txn p q : Nat) (hne : (s.txns txn).pagelist ≠ p) :
    (add_result s txn p).pages q =
      if q = p then
        { s.pages p with refcount := (s.pages p).refcount + 1,
                         next := (s.txns txn).pagelist, previous := 0 }
      else if q = (s.txns txn).pagelist ∧ (s.txns txn).pagelist ≠ 0 then
        { s.pages (s.txns txn).pagelist with previous := p }
      else s.pages q := by
  show (page_list_insert (page_add_ref s p) (s.txns txn).pagelist p).1.pages q = _
  rw [page_list_insert_pages _ _ _ _ hne]
  by_cases hq : q = p
  · simp [hq, page_add_ref]
  · by_cases hq2 : q = (s.txns txn).pagelist ∧ (s.txns txn).pagelist ≠ 0
    · simp [hq, hq2, page_add_ref, Function.update, hne]
    · simp [hq, hq2, page_add_ref, Function.update]

theorem add_result_rest (s : Store) (txn p : Nat) :
    ((add_result s txn p).txns txn).pagelist = p ∧
    (∀ t, t ≠ txn → (add_result s txn p).txns t = s.txns t) ∧
    (add_result s txn p).dbs = s.dbs ∧ (add_result s txn p).calls = s.calls := by
  refine ⟨?_, ?_, ?_, ?_⟩
  · simp [add_result, txn_set_pagelist, page_list_insert_head]
  · intro t ht
    simp [add_result, txn_set_pagelist, Function.update, ht, (page_list_insert_rest _ _ _).1,
      page_add_ref]
  · simp [add_result, txn_set_pagelist, (page_list_insert_rest _ _ _).2.1, page_add_ref]
  · simp [add_result, txn_set_pagelist, (page_list_insert_rest _ _ _).2.2, page_add_ref]

/-- The pages `txn_remove_page` leaves: those `page_list_remove` leaves, with the
reference of the removed page released. -/
theorem txn_remove_page_pages (s : Store) (txn x q : Nat) :
    (txn_remove_page s txn x).1.pages q =
      if q = x then
        { (page_list_remove s (s.txns txn).pagelist x).1.pages x with
          refcount := ((page_list_remove s (s.txns txn).pagelist x).1.pages x).refcount - 1 }
      else (page_list_remove s (s.txns txn).pagelist x).1.pages q := by
  by_cases hq : q = x <;>
    simp [txn_remove_page, txn_set_pagelist, page_release_ref, Function.update, hq]

theorem txn_remove_page_rest (s : Store) (txn x : Nat) :
    (txn_remove_page s txn x).2 = 0 ∧
    ((txn_remove_page s txn x).1.txns txn).pagelist =
      (page_list_remove s (s.txns txn).pagelist x).2 ∧
    (txn_remove_page s txn x).1.calls = s.calls := by
  refine ⟨rfl, ?_, ?_⟩
  · simp [txn_remove_page, txn_set_pagelist, page_release_ref]
  · simp [txn_remove_page, txn_set_pagelist, page_release_ref,
      (page_list_remove_rest _ _ _).2.2]

/-- The refcounts after `txn_remove_page`: one less for the removed page, the same
for every other page. -/
theorem txn_remove_page_refcount (s : Store) (txn x q : Nat) :
    ((txn_remove_page s txn x).1.pages q).refcount =
      if q = x then (s.pages x).refcount - 1 else (s.pages q).refcount := by
  rw [txn_remove_page_pages]
  by_cases hq : q = x
  · subst hq
    simp [(page_list_remove_flags s (s.txns txn).pagelist q q).2]
  · simp [hq, (page_list_remove_flags s (s.txns txn).pagelist x q).2]

/-- The store after `txn_add_page` has inserted `p` and `txn_remove_page` has
removed it again, page by page. -/
theorem remove_add_result_pages (s : Store) (txn p q : Nat)
    (hne : (s.txns txn).pagelist ≠ p) :
    (txn_remove_page (add_result s txn p) txn p).1.pages q =
      if q = p then { s.pages p with next := 0, previous := 0 }
      else if q = (s.txns txn).pagelist ∧ (s.txns txn).pagelist ≠ 0 then
        { s.pages (s.txns txn).pagelist with previous := 0 }
      else s.pages q := by
  have hh : ((add_result s txn p).txns txn).pagelist = p := (add_result_rest s txn p).1
  have hpn : ((add_result s txn p).pages p).next = (s.txns txn).pagelist := by
    rw [add_result_pages s txn p p hne]; simp
  have hnx : ((add_result s txn p).pages p).next ≠ p := by rw [hpn]; exact hne
  rw [txn_remove_page_pages, hh, page_list_remove_head_pages _ p q hnx,
    page_list_remove_head_pages _ p p hnx, hpn]
  by_cases hq : q = p
  · simp [hq, add_result_pages s txn p p hne]
  · by_cases hq2 : q = (s.txns txn).pagelist ∧ (s.txns txn).pagelist ≠ 0
    · simp [hq, hq2, add_result_pages s txn p _ hne, hne]
    · simp [hq, hq2, add_result_pages s txn p q hne]

theorem remove_add_result_head (s : Store) (txn p : Nat) (hne : (s.txns txn).pagelist ≠ p) :
    ((txn_remove_page (add_result s txn p) txn p).1.txns txn).pagelist =
      (s.txns txn).pagelist := by
  have hh : ((add_result s txn p).txns txn).pagelist = p := (add_result_rest s txn p).1
  rw [(txn_remove_page_rest _ txn p).2.1, hh, page_list_remove_head, if_pos rfl,
    add_result_pages s txn p p hne]
  simp

/-- C14: `txn_remove_page` undoes `txn_add_page`.  For a transaction with the
well-formed pagelist `ps` and a page `p` that is not null and not in `ps` (and,
when the flag is set, whose address no page of `ps` has, so that the page is
added), `txn_add_page(txn, p, flag)` followed by `txn_remove_page(txn, p)` returns
success twice and leaves the pagelist with the same head and the same pages `ps`
in the same order, and every refcount, that of `p` included, at its original
value; if the list was doubly linked, it is again and every page other than `p`
is exactly as before.  In general, for a doubly linked pagelist
`a ++ x :: b`, `txn_remove_page(txn, x)` returns success, leaves the pagelist
`a ++ b`, decreases the refcount of `x` by exactly 1 and changes no other
refcount. -/
theorem C14_remove_page_undoes_add_page (fuel : Nat) (s : Store) (txn : Nat) :
    (∀ (p : Nat) (flag : Bool) (ps : List Nat),
      IsPagelist s.pages (s.txns txn).pagelist ps → p ≠ 0 → p ∉ ps →
      (flag = true → ∀ q ∈ ps, (s.pages q).self ≠ (s.pages p).self) → ps.length ≤ fuel →
      ∃ s1, txn_add_page fuel s txn p flag = some (s1, 0) ∧
        in_pagelist s1 txn p ∧
        (txn_remove_page s1 txn p).2 = 0 ∧
        ((txn_remove_page s1 txn p).1.txns txn).pagelist = (s.txns txn).pagelist ∧
        IsPagelist (txn_remove_page s1 txn p).1.pages
          ((txn_remove_page s1 txn p).1.txns txn).pagelist ps ∧
        (∀ q, ((txn_remove_page s1 txn p).1.pages q).refcount = (s.pages q).refcount) ∧
        (IsDList s.pages 0 (s.txns txn).pagelist ps →
          IsDList (txn_remove_page s1 txn p).1.pages 0
            ((txn_remove_page s1 txn p).1.txns txn).pagelist ps ∧
          ∀ q, q ≠ p → (txn_remove_page s1 txn p).1.pages q = s.pages q)) ∧
    (∀ (x : Nat) (a b : List Nat),
      IsDList s.pages 0 (s.txns txn).pagelist (a ++ x :: b) →
      (txn_remove_page s txn x).2 = 0 ∧
      IsDList (txn_remove_page s txn x).1.pages 0
        ((txn_remove_page s txn x).1.txns txn).pagelist (a ++ b) ∧
      IsPagelist (txn_remove_page s txn x).1.pages
        ((txn_remove_page s txn x).1.txns txn).pagelist (a ++ b) ∧
      x ∉ a ++ b ∧
      ((txn_remove_page s txn x).1.pages x).refcount = (s.pages x).refcount - 1 ∧
      ∀ q, q ≠ x → ((txn_remove_page s txn x).1.pages q).refcount = (s.pages q).refcount) := by
  refine ⟨?_, ?_⟩
  · intro p flag ps hl hp hnot haddr hf
    have hins := txn_add_page_inserts fuel s txn p flag
      (fun e => txn_get_page_not_found fuel s txn _ ps hl (haddr e) hf)
    have hne : (s.txns txn).pagelist ≠ p := by
      cases ps with
      | nil => exact fun e => hp (e ▸ hl)
      | cons h ps2 => exact fun e => hnot (by rw [← e, hl.1]; exact List.mem_cons_self _ _)
    have hl1 : IsPagelist (page_add_ref s p).pages (s.txns txn).pagelist ps := by
      refine IsPagelist_congr ps _ (fun q _ => ?_) hl
      by_cases hq : q = p <;> simp [page_add_ref, Function.update, hq]
    have hin : in_pagelist (add_result s txn p) txn p := by
      refine ⟨p :: ps, ?_, List.mem_cons_self _ _⟩
      rw [(add_result_rest s txn p).1]
      exact page_list_insert_pagelist (page_add_ref s p) (s.txns txn).pagelist p ps hl1 hp hnot
    have hhead := remove_add_result_head s txn p hne
    have hnext : ∀ q ∈ ps, ((txn_remove_page (add_result s txn p) txn p).1.pages q).next =
        (s.pages q).next := by
      intro q hq
      have hq1 : q ≠ p := fun e => hnot (e ▸ hq)
      rw [remove_add_result_pages s txn p q hne]
      by_cases hq2 : q = (s.txns txn).pagelist ∧ (s.txns txn).pagelist ≠ 0
      · rw [if_neg hq1, if_pos hq2, hq2.1]
      · rw [if_neg hq1, if_neg hq2]
    refine ⟨_, hins, hin, rfl, hhead, ?_, ?_, ?_⟩
    · rw [hhead]
      exact IsPagelist_congr ps _ (fun q hq => (hnext q hq).symm) hl
    · intro q
      rw [remove_add_result_pages s txn p q hne]
      by_cases hq : q = p
      · simp [hq]
      · by_cases hq2 : q = (s.txns txn).pagelist ∧ (s.txns txn).pagelist ≠ 0
        · rw [if_neg hq, if_pos hq2, hq2.1]
        · rw [if_neg hq, if_neg hq2]
    · intro hd
      have hother : ∀ q, q ≠ p →
          (txn_remove_page (add_result s txn p) txn p).1.pages q = s.pages q := by
        intro q hq
        rw [remove_add_result_pages s txn p q hne]
        by_cases hq2 : q = (s.txns txn).pagelist ∧ (s.txns txn).pagelist ≠ 0
        · have hprev : (s.pages (s.txns txn).pagelist).previous = 0 := by
            cases ps with
            | nil => exact absurd hd hq2.2
            | cons h ps2 =>
              have h1 : (s.txns txn).pagelist = h := hd.1
              rw [h1]; exact hd.2.2.1
          simp only [if_neg hq, if_pos hq2]
          rw [hq2.1, ← hprev]
        · simp [hq, hq2]
      refine ⟨?_, hother⟩
      rw [hhead]
      refine IsDList_congr ps _ _ (fun q hq => ?_) hd
      have hq1 : q ≠ p := fun e => hnot (e ▸ hq)
      rw [hother q hq1]
      exact ⟨rfl, rfl⟩
  · intro x a b hd
    have hd2 := page_list_remove_dlist s (s.txns txn).pagelist x a b hd
    have hd3 : IsDList (txn_remove_page s txn x).1.pages 0
        ((txn_remove_page s txn x).1.txns txn).pagelist (a ++ b) := by
      rw [(txn_remove_page_rest s txn x).2.1]
      refine IsDList_congr (a ++ b) _ _ (fun q _ => ?_) hd2
      rw [txn_remove_page_pages]
      by_cases hq : q = x <;> simp [hq]
    have hnd := IsDList_nodup hd
    have hxa : x ∉ a := fun e => (List.nodup_append.mp hnd).2.2 e (List.mem_cons_self _ _)
    have hxb : x ∉ b := (List.nodup_cons.mp (List.nodup_append.mp hnd).2.1).1
    refine ⟨rfl, hd3, IsDList.isPagelist _ _ _ hd3, ?_, ?_, ?_⟩
    · intro e
      rcases List.mem_append.mp e with e | e
      · exact hxa e
      · exact hxb e
    · rw [txn_remove_page_refcount]; simp
    · intro q hq
      rw [txn_remove_page_refcount]; simp [hq]

/-- The claim C14 at the doubly linked pagelist `1, 2, 3` of `store123`: page `7`
is added and removed again, and page `2` is removed from the middle. -/
theorem C14_witness :
    (∃ s1, txn_add_page 3 store123 1 7 true = some (s1, 0) ∧
        in_pagelist s1 1 7 ∧
        (txn_remove_page s1 1 7).2 = 0 ∧
        ((txn_remove_page s1 1 7).1.txns 1).pagelist = (store123.txns 1).pagelist ∧
        IsPagelist (txn_remove_page s1 1 7).1.pages
          ((txn_remove_page s1 1 7).1.txns 1).pagelist [1, 2, 3] ∧
        (∀ q, ((txn_remove_page s1 1 7).1.pages q).refcount = (store123.pages q).refcount) ∧
        (IsDList store123.pages 0 (store123.txns 1).pagelist [1, 2, 3] →
          IsDList (txn_remove_page s1 1 7).1.pages 0
            ((txn_remove_page s1 1 7).1.txns 1).pagelist [1, 2, 3] ∧
          ∀ q, q ≠ 7 → (txn_remove_page s1 1 7).1.pages q = store123.pages q)) ∧
    ((txn_remove_page store123 1 2).2 = 0 ∧
      IsDList (txn_remove_page store123 1 2).1.pages 0
        ((txn_remove_page store123 1 2).1.txns 1).pagelist ([1] ++ [3]) ∧
      IsPagelist (txn_remove_page store123 1 2).1.pages
        ((txn_remove_page store123 1 2).1.txns 1).pagelist ([1] ++ [3]) ∧
      2 ∉ [1] ++ [3] ∧
      ((txn_remove_page store123 1 2).1.pages 2).refcount = (store123.pages 2).refcount - 1 ∧
      ∀ q, q ≠ 2 →
        ((txn_remove_page store123 1 2).1.pages q).refcount = (store123.pages q).refcount) :=
  ⟨(C14_remove_page_undoes_add_page 3 store123 1).1 7 true [1, 2, 3]
      (by decide) (by decide) (by decide) (fun _ => by decide) (by decide),
    (C14_remove_page_undoes_add_page 3 store123 1).2 2 [1] [3] (by decide)⟩

/-! ## The order of a commit -/

/-- The calls recorded by a `ham_txn_commit` that returns success: one per page of
the pagelist, in the order of the list. -/
theorem ham_txn_commit_calls (dev : Device) (fuel : Nat) (s : Store) (txn flags : Nat)
    (ps : List Nat) (s2 : Store) (hl : IsPagelist s.pages (s.txns txn).pagelist ps)
    (hc : ham_txn_commit dev fuel s txn flags = some (s2, 0)) :
    s2.calls = s.calls ++ ps.map (commit_call s (s.txns txn).db flags) := by
  have hf := ham_txn_commit_success_fuel dev fuel s txn flags ps s2 hl hc
  have hok := ham_txn_commit_success dev fuel s txn flags ps s2 hl hf hc
  have he := ham_txn_commit_ok dev fuel s txn flags ps hl hf hok
  rw [he] at hc
  simp only [Option.some.injEq, Prod.mk.injEq, and_true] at hc
  subst hc
  simp only [txn_set_pagelist, commit_steps_calls]
  rfl

theorem add_result_self (s : Store) (txn p q : Nat) (hne : (s.txns txn).pagelist ≠ p) :
    ((add_result s txn p).pages q).self = (s.pages q).self := by
  rw [add_result_pages s txn p q hne]
  by_cases hq : q = p
  · simp [hq]
  · by_cases hq2 : q = (s.txns txn).pagelist ∧ (s.txns txn).pagelist ≠ 0
    · rw [if_neg hq, if_pos hq2, hq2.1]
    · rw [if_neg hq, if_neg hq2]

theorem add_result_flags (s : Store) (txn p q : Nat) :
    ((add_result s txn p).pages q).npers_flags = (s.pages q).npers_flags ∧
    ((add_result s txn p).txns txn).db = (s.txns txn).db := by
  refine ⟨?_, ?_⟩
  · show ((page_list_insert (page_add_ref s p) _ p).1.pages q).npers_flags = _
    rw [page_list_insert_flags]
    by_cases hq : q = p <;> simp [page_add_ref, Function.update, hq]
  · simp [add_result, txn_set_pagelist, (page_list_insert_rest _ _ _).1, page_add_ref]

/-- A sequence of `txn_add_page` of pages that are not null, pairwise distinct and
not yet in the pagelist returns and puts them in front of the pagelist, last added
first; it changes no page's flags, not the database of the transaction, and makes
no call into db.c. -/
theorem txn_add_pages_pagelist (fuel txn : Nat) (addr : Nat → Nat) :
    ∀ (adds : List (Nat × Bool)) (s : Store) (ps0 : List Nat),
      (∀ q, (s.pages q).self = addr q) →
      IsPagelist s.pages (s.txns txn).pagelist ps0 →
      (∀ a ∈ adds, a.1 ≠ 0) →
      adds.Pairwise (fun a b => a.1 ≠ b.1 ∧ (b.2 = true → addr a.1 ≠ addr b.1)) →
      (∀ a ∈ adds, a.1 ∉ ps0 ∧ (a.2 = true → ∀ q ∈ ps0, addr q ≠ addr a.1)) →
      ps0.length + adds.length ≤ fuel →
      ∃ s1, txn_add_pages fuel txn s adds = some s1 ∧
        IsPagelist s1.pages (s1.txns txn).pagelist ((adds.map Prod.fst).reverse ++ ps0) ∧
        s1.calls = s.calls ∧
        (∀ q, (s1.pages q).npers_flags = (s.pages q).npers_flags) ∧
        (s1.txns txn).db = (s.txns txn).db
  | [], s, ps0, _, hl, _, _, _, _ => ⟨s, rfl, by simpa using hl, rfl, fun _ => rfl, rfl⟩
  | a :: rest, s, ps0, hself, hl, hnz, hpw, hps0, hf => by
    have hp : a.1 ≠ 0 := hnz a (List.mem_cons_self _ _)
    obtain ⟨hnot, haddr⟩ := hps0 a (List.mem_cons_self _ _)
    have hf0 : ps0.length ≤ fuel := by omega
    have hins := txn_add_page_inserts fuel s txn a.1 a.2 (fun e =>
      txn_get_page_not_found fuel s txn _ ps0 hl
        (fun q hq => by rw [hself q, hself a.1]; exact haddr e q hq) hf0)
    have hne : (s.txns txn).pagelist ≠ a.1 := by
      cases ps0 with
      | nil => exact fun e => hp (e ▸ hl)
      | cons h ps2 => exact fun e => hnot (by rw [← e, hl.1]; exact List.mem_cons_self _ _)
    have hl1 : IsPagelist (page_add_ref s a.1).pages (s.txns txn).pagelist ps0 := by
      refine IsPagelist_congr ps0 _ (fun q _ => ?_) hl
      by_cases hq : q = a.1 <;> simp [page_add_ref, Function.update, hq]
    have hl2 : IsPagelist (add_result s txn a.1).pages
        ((add_result s txn a.1).txns txn).pagelist (a.1 :: ps0) := by
      rw [(add_result_rest s txn a.1).1]
      exact page_list_insert_pagelist (page_add_ref s a.1) (s.txns txn).pagelist a.1 ps0
        hl1 hp hnot
    obtain ⟨hpa, hpw2⟩ := List.pairwise_cons.mp hpw
    obtain ⟨s1, h1, h2, h3, h4, h5⟩ := txn_add_pages_pagelist fuel txn addr rest
      (add_result s txn a.1) (a.1 :: ps0)
      (fun q => by rw [add_result_self s txn a.1 q hne]; exact hself q) hl2
      (fun b hb => hnz b (List.mem_cons_of_mem _ hb)) hpw2
      (fun b hb => by
        obtain ⟨g1, g2⟩ := hps0 b (List.mem_cons_of_mem _ hb)
        obtain ⟨k1, k2⟩ := hpa b hb
        refine ⟨?_, ?_⟩
        · intro e
          rcases List.mem_cons.mp e with e | e
          · exact k1 e.symm
          · exact g1 e
        · intro hb2 q hq
          rcases List.mem_cons.mp hq with e | e
          · rw [e]; exact k2 hb2
          · exact g2 hb2 q e)
      (by simp only [List.length_cons] at hf ⊢; omega)
    refine ⟨s1, ?_, ?_, ?_, ?_, ?_⟩
    · simp only [txn_add_pages, hins]
      exact h1
    · simpa using h2
    · rw [h3]; exact (add_result_rest s txn a.1).2.2.2
    · intro q
      rw [h4 q]; exact (add_result_flags s txn a.1 q).1
    · rw [h5]; exact (add_result_flags s txn a.1 a.1).2

/-- C15: pages that are not null and pairwise distinct (and of which one added
with the flag set has an address different from those of the pages added before
it, so that it is added) are added to an empty transaction by `txn_add_page` in
the order `p1, ..., pn` of the list.  All these calls return and the pagelist is
then `pn, ..., p1`.  A `ham_txn_commit` of that transaction, with a loop bound of
at least `n` and every call it makes succeeding, returns success, and the calls
it has made are one `db_free_page` (for a page with DELETE_PENDING) or
`db_flush_page` (for any other page) per page, in the order `pn, ..., p1`: last
added first.  And whenever a `ham_txn_commit` of that transaction returns
success, these are the calls it has made. -/
theorem C15_commit_processes_pages_last_added_first (fuel txn : Nat) (s : Store)
    (adds : List (Nat × Bool)) (hempty : (s.txns txn).pagelist = 0)
    (hnz : ∀ a ∈ adds, a.1 ≠ 0)
    (hdist : adds.Pairwise (fun a b => a.1 ≠ b.1 ∧
      (b.2 = true → (s.pages a.1).self ≠ (s.pages b.1).self)))
    (hf : adds.length ≤ fuel) :
    ∃ s1, txn_add_pages fuel txn s adds = some s1 ∧
      IsPagelist s1.pages (s1.txns txn).pagelist (adds.map Prod.fst).reverse ∧
      (∀ (dev : Device) (fuel2 flags : Nat), adds.length ≤ fuel2 →
        (∀ a ∈ adds, (delete_pending (s.pages a.1) → dev.free_status a.1 = 0) ∧
          (¬ delete_pending (s.pages a.1) → dev.flush_status a.1 = 0)) →
        ∃ s2, ham_txn_commit dev fuel2 s1 txn flags = some (s2, 0) ∧
          s2.calls = s.calls ++ (adds.map Prod.fst).reverse.map (fun p =>
            if delete_pending (s.pages p) then Call.free_page p DB_MOVE_TO_FREELIST
            else Call.flush_page (s.txns txn).db p (write_flags flags))) ∧
      (∀ (dev : Device) (fuel2 flags : Nat) (s2 : Store),
        ham_txn_commit dev fuel2 s1 txn flags = some (s2, 0) →
        s2.calls = s.calls ++ (adds.map Prod.fst).reverse.map (fun p =>
          if delete_pending (s.pages p) then Call.free_page p DB_MOVE_TO_FREELIST
          else Call.flush_page (s.txns txn).db p (write_flags flags))) := by
  obtain ⟨s1, h1, h2, h3, h4, h5⟩ := txn_add_pages_pagelist fuel txn
    (fun q => (s.pages q).self) adds s [] (fun _ => rfl) hempty hnz hdist
    (fun a _ => ⟨by simp, fun _ q hq => by simp at hq⟩) (by simpa using hf)
  rw [List.append_nil] at h2
  have hcall : ∀ flags, commit_call s1 (s1.txns txn).db flags =
      (fun p => if delete_pending (s.pages p) then Call.free_page p DB_MOVE_TO_FREELIST
        else Call.flush_page (s.txns txn).db p (write_flags flags)) := by
    intro flags
    funext p
    simp only [commit_call, delete_pending, h4 p, h5]
  have hcalls : ∀ (dev : Device) (fuel2 flags : Nat) (s2 : Store),
      ham_txn_commit dev fuel2 s1 txn flags = some (s2, 0) →
      s2.calls = s.calls ++ (adds.map Prod.fst).reverse.map (fun p =>
        if delete_pending (s.pages p) then Call.free_page p DB_MOVE_TO_FREELIST
        else Call.flush_page (s.txns txn).db p (write_flags flags)) := by
    intro dev fuel2 flags s2 hc
    rw [ham_txn_commit_calls dev fuel2 s1 txn flags _ s2 h2 hc, h3, hcall flags]
  refine ⟨s1, h1, h2, fun dev fuel2 flags hf2 hok => ?_, hcalls⟩
  have hlen : (adds.map Prod.fst).reverse.length ≤ fuel2 := by simpa using hf2
  have hok2 : ∀ p ∈ (adds.map Prod.fst).reverse, commit_status dev s1 p = 0 := by
    intro p hp
    obtain ⟨a, ha, rfl⟩ := List.mem_map.mp (List.mem_reverse.mp hp)
    have hd : delete_pending (s1.pages a.1) ↔ delete_pending (s.pages a.1) := by
      simp only [delete_pending, h4 a.1]
    by_cases hdp : delete_pending (s.pages a.1)
    · simp [commit_status, hd.mpr hdp, (hok a ha).1 hdp]
    · simp [commit_status, mt hd.mp hdp, (hok a ha).2 hdp]
  have hc := ham_txn_commit_ok dev fuel2 s1 txn flags _ h2 hlen hok2
  exact ⟨_, hc, hcalls dev fuel2 flags _ hc⟩

/-- The claim C15 for the pages `1, 2, 3` added in this order to the empty
transaction `1` of `store0 0 0`, and a commit for which every call succeeds: the
commit returns success and has flushed page `3`, then page `2`, then page `1`. -/
theorem C15_witness :
    ∃ s1 s2, txn_add_pages 3 1 (store0 0 0) [(1, false), (2, true), (3, false)] = some s1 ∧
      IsPagelist s1.pages (s1.txns 1).pagelist [3, 2, 1] ∧
      ham_txn_commit dev_ok 3 s1 1 0 = some (s2, 0) ∧
      s2.calls = [Call.flush_page 1 3 0, Call.flush_page 1 2 0, Call.flush_page 1 1 0] := by
  obtain ⟨s1, h1, h2, h3, _⟩ := C15_commit_processes_pages_last_added_first 3 1 (store0 0 0)
    [(1, false), (2, true), (3, false)] rfl (by decide) (by decide) (by decide)
  obtain ⟨s2, g1, g2⟩ := h3 dev_ok 3 0 (by decide) (fun _ _ => ⟨fun _ => rfl, fun _ => rfl⟩)
  exact ⟨s1, s2, h1, h2, g1, g2.trans (by decide)⟩

/-! ## Commit and abort of a transaction that is already terminal -/

theorem or_ne_zero_of_left (x y : Nat) (h : x ≠ 0) : x ||| y ≠ 0 := by
  intro e
  apply h
  apply Nat.eq_of_testBit_eq
  intro i
  have := congrArg (fun n => Nat.testBit n i) e
  simp at this
  simp [this.1]

/-- A state bit that is set stays set when another bit is set. -/
theorem state_bit_stays (f a c : Nat) (h : (f &&& c != 0) = true) :
    ((f ||| a) &&& c != 0) = true := by
  rw [bne_iff_ne] at h ⊢
  rw [Nat.and_distrib_right]
  exact or_ne_zero_of_left _ _ h

/-- With an empty pagelist `ham_txn_commit` returns success and changes no page. -/
theorem ham_txn_commit_empty (dev : Device) (fuel : Nat) (s : Store) (txn flags : Nat)
    (h : (s.txns txn).pagelist = 0) :
    ∃ s', ham_txn_commit dev fuel s txn flags = some (s', 0) ∧ s'.pages = s.pages ∧
      s'.calls = s.calls ∧ (s'.txns txn).pagelist = 0 := by
  have hl : IsPagelist s.pages (s.txns txn).pagelist [] := h
  refine ⟨_, ham_txn_commit_ok dev fuel s txn flags [] hl (Nat.zero_le _)
    (fun p hp => by simp at hp), ?_, ?_, ?_⟩ <;>
    simp [txn_set_pagelist, commit_steps, db_set_txn]

/-- C16, a counterexample to the claim as stated.  A remote transaction that is
already marked committed is committed again, the server answering with status 0:
the call reports success (no exception) and changes the transaction's flags.  And
a `ham_txn_commit` that has returned success is followed by a second
`ham_txn_commit` and by a `ham_txn_abort` of the same transaction: both return
success (0). -/
theorem C16_counterexample :
    Transaction.is_committed { id := 1, m_flags := kStateCommitted, m_remote_handle := 7 } =
      true ∧
    RemoteTransaction.commit { id := 1, m_flags := kStateCommitted, m_remote_handle := 7 } 0 =
      Except.ok { id := 1, m_flags := kStateCommitted ||| kStateAborted,
                  m_remote_handle := 7 } ∧
    kStateCommitted ||| kStateAborted ≠ kStateCommitted ∧
    RemoteTransaction.abort { id := 1, m_flags := kStateCommitted, m_remote_handle := 7 } 0 =
      Except.ok { id := 1, m_flags := kStateCommitted, m_remote_handle := 7 } ∧
    (∃ s1, ham_txn_commit dev_ok 3 store123 1 0 = some (s1, 0) ∧
      (ham_txn_commit dev_ok 3 s1 1 0).map Prod.snd = some 0 ∧
      (ham_txn_abort 3 s1 1).map Prod.snd = some 0) := by
  refine ⟨by decide, rfl, by decide, rfl, ?_⟩
  have hl : IsPagelist store123.pages (store123.txns 1).pagelist [1, 2, 3] := by decide
  refine ⟨_, ham_txn_commit_ok dev_ok 3 store123 1 0 [1, 2, 3] hl (by decide) (by decide),
    ?_, ?_⟩
  · obtain ⟨s2, h2, _⟩ := ham_txn_commit_empty dev_ok 3
      (txn_set_pagelist (commit_steps (store123.txns 1).db 0
        (db_set_txn store123 (store123.txns 1).db 0) [1, 2, 3]) 1 0) 1 0
      (by simp [txn_set_pagelist])
    rw [h2]; rfl
  · obtain ⟨s2, h2, _⟩ := ham_txn_abort_empty 3
      (txn_set_pagelist (commit_steps (store123.txns 1).db 0
        (db_set_txn store123 (store123.txns 1).db 0) [1, 2, 3]) 1 0) 1
      (by simp [txn_set_pagelist])
    rw [h2]; rfl

/-- C16, amended.  Neither file looks at the state of the transaction.
`RemoteTransaction::commit` and `RemoteTransaction::abort` fail exactly when the
server's reply has a status other than 0: they throw that status, and no flag of
the transaction is changed.  When the reply has status 0 they report success, and
a transaction that was marked committed or aborted is still marked so
afterwards.  `ham_txn_commit` and `ham_txn_abort` on a transaction with an empty
pagelist, as a finished commit or abort leaves it, return success and leave every
page and the record of calls as they are. -/
theorem C16_terminal_transactions_are_not_rejected (t : Transaction) (st : ham_status_t) :
    (st ≠ 0 → RemoteTransaction.commit t st = Except.error st ∧
      RemoteTransaction.abort t st = Except.error st) ∧
    (st = 0 →
      (∃ t2, RemoteTransaction.commit t st = Except.ok t2 ∧
        (t.is_committed = true → t2.is_committed = true) ∧
        (t.is_aborted = true → t2.is_aborted = true)) ∧
      RemoteTransaction.abort t st = Except.ok t) ∧
    (∀ (dev : Device) (fuel : Nat) (s : Store) (txn flags : Nat),
      (s.txns txn).pagelist = 0 →
      (∃ s2, ham_txn_commit dev fuel s txn flags = some (s2, 0) ∧ s2.pages = s.pages ∧
        s2.calls = s.calls ∧ (s2.txns txn).pagelist = 0) ∧
      (∃ s2, ham_txn_abort fuel s txn = some (s2, 0) ∧ s2.pages = s.pages ∧
        s2.calls = s.calls ∧ (s2.txns txn).pagelist = 0)) := by
  refine ⟨fun h => ?_, fun h => ?_, fun dev fuel s txn flags h =>
    ⟨ham_txn_commit_empty dev fuel s txn flags h, ham_txn_abort_empty fuel s txn h⟩⟩
  · simp [RemoteTransaction.commit, RemoteTransaction.abort, h]
  · subst h
    refine ⟨⟨_, rfl, fun hc => ?_, fun ha => ?_⟩, rfl⟩
    · exact state_bit_stays _ _ _ hc
    · exact state_bit_stays _ _ _ ha

/-- The claim C16, as amended, for a transaction that is marked committed: with
the reply status -18 commit and abort throw -18, with the reply status 0 they
report success. -/
theorem C16_witness :
    (RemoteTransaction.commit { id := 1, m_flags := kStateCommitted, m_remote_handle := 7 }
        (-18) = Except.error (-18) ∧
      RemoteTransaction.abort { id := 1, m_flags := kStateCommitted, m_remote_handle := 7 }
        (-18) = Except.error (-18)) ∧
    ((∃ t2, RemoteTransaction.commit
          { id := 1, m_flags := kStateCommitted, m_remote_handle := 7 } 0 = Except.ok t2 ∧
        (Transaction.is_committed
            { id := 1, m_flags := kStateCommitted, m_remote_handle := 7 } = true →
          t2.is_committed = true) ∧
        (Transaction.is_aborted
            { id := 1, m_flags := kStateCommitted, m_remote_handle := 7 } = true →
          t2.is_aborted = true)) ∧
      RemoteTransaction.abort { id := 1, m_flags := kStateCommitted, m_remote_handle := 7 } 0 =
        Except.ok { id := 1, m_flags := kStateCommitted, m_remote_handle := 7 }) :=
  ⟨(C16_terminal_transactions_are_not_rejected
      { id := 1, m_flags := kStateCommitted, m_remote_handle := 7 } (-18)).1 (by decide),
    (C16_terminal_transactions_are_not_rejected
      { id := 1, m_flags := kStateCommitted, m_remote_handle := 7 } 0).2.1 rfl⟩

/-! ## Theorems about add_to_freelist and get_blob_alignment -/

/-- The two cases of `get_freelist` for a database without a reduced freelist. -/
theorem get_freelist_of_no_reduced (pm : PageManager) (db : Option Database)
    (hr : reduced_of db = none) :
    pm.get_freelist db =
      if pm.m_freelist = none ∧ pm.m_env.flags &&& HAM_IN_MEMORY = 0 ∧
          pm.m_env.flags &&& HAM_READ_ONLY = 0 then
        (some (Freelist.full { env := pm.m_env, serial := pm.created }),
          { pm with m_freelist := some { env := pm.m_env, serial := pm.created },
                    created := pm.created + 1 })
      else (pm.m_freelist.map Freelist.full, pm) := by
  cases db with
  | none => simp only [PageManager.get_freelist]; split_ifs <;> rfl
  | some d =>
    simp only [reduced_of] at hr
    simp only [PageManager.get_freelist, hr]
    split_ifs <;> rfl

theorem get_freelist_of_reduced (pm : PageManager) (db : Option Database) (r : Nat)
    (hr : reduced_of db = some r) :
    pm.get_freelist db = (some (Freelist.reduced r), pm) := by
  cases db with
  | none => simp [reduced_of] at hr
  | some d =>
    simp only [reduced_of] at hr
    simp [PageManager.get_freelist, hr]

/-- The method `get_freelist` returns null exactly when the database has no reduced
freelist, no full freelist exists and the environment is in-memory or read-only;
the page manager is then left as it is. -/
theorem get_freelist_none_iff (pm : PageManager) (db : Option Database) :
    ((pm.get_freelist db).1 = none ↔
      reduced_of db = none ∧ pm.m_freelist = none ∧
        (pm.m_env.flags &&& HAM_IN_MEMORY ≠ 0 ∨ pm.m_env.flags &&& HAM_READ_ONLY ≠ 0)) ∧
    ((pm.get_freelist db).1 = none → (pm.get_freelist db).2 = pm) := by
  cases hr : reduced_of db with
  | some r =>
    rw [get_freelist_of_reduced pm db r hr]
    simp
  | none =>
    rw [get_freelist_of_no_reduced pm db hr]
    by_cases hc : pm.m_freelist = none ∧ pm.m_env.flags &&& HAM_IN_MEMORY = 0 ∧
        pm.m_env.flags &&& HAM_READ_ONLY = 0
    · rw [if_pos hc]
      simp only [reduceCtorEq, false_iff, not_and, true_and, false_implies, and_true]
      intro _ h
      rcases h with h | h
      · exact h hc.2.1
      · exact h hc.2.2
    · rw [if_neg hc]
      cases hf : pm.m_freelist with
      | none =>
        simp only [hf, true_and, not_and] at hc
        simp only [Option.map_none', true_and, implies_true, and_true, true_iff]
        by_cases h1 : pm.m_env.flags &&& HAM_IN_MEMORY = 0
        · exact Or.inr (hc h1)
        · exact Or.inl h1
      | some f => simp

/-- C17: when `get_freelist` returns null for the page's database, respectively
for `db` (which is so in an in-memory environment without full freelist, for a
database without reduced freelist), `add_to_freelist(page)` and
`add_to_freelist(db, address, size)` return 0, call no method of a freelist and
leave the page manager as it is.  When `get_freelist` returns the freelist `f`,
they return exactly the status of `f->free_page(page)`, respectively
`f->free_area(address, size)`, and this is the one call they make. -/
theorem C17_add_to_freelist_delegates_or_does_nothing (fm : FreelistMethods)
    (pm : PageManager) (page : Page) (db : Option Database) (address size : Nat) :
    ((pm.get_freelist page.db).1 = none →
      pm.add_to_freelist fm page = (0, pm, [])) ∧
    ((pm.get_freelist db).1 = none →
      pm.add_to_freelist_area fm db address size = (0, pm, [])) ∧
    (∀ f, (pm.get_freelist page.db).1 = some f →
      pm.add_to_freelist fm page =
        (fm.free_page f page, (pm.get_freelist page.db).2, [FreelistCall.free_page f page])) ∧
    (∀ f, (pm.get_freelist db).1 = some f →
      pm.add_to_freelist_area fm db address size =
        (fm.free_area f address size, (pm.get_freelist db).2,
          [FreelistCall.free_area f address size])) ∧
    (reduced_of db = none → pm.m_freelist = none → pm.m_env.flags &&& HAM_IN_MEMORY ≠ 0 →
      (pm.get_freelist db).1 = none) := by
  refine ⟨fun h => ?_, fun h => ?_, fun f h => ?_, fun f h => ?_, fun h1 h2 h3 => ?_⟩
  · have h2 := (get_freelist_none_iff pm page.db).2 h
    simp only [PageManager.add_to_freelist, h, h2]
  · have h2 := (get_freelist_none_iff pm db).2 h
    simp only [PageManager.add_to_freelist_area, h, h2]
  · simp only [PageManager.add_to_freelist, h]
  · simp only [PageManager.add_to_freelist_area, h]
  · exact (get_freelist_none_iff pm db).1.mpr ⟨h1, h2, Or.inl h3⟩

/-- The claim C17 for a database without reduced freelist: in an in-memory
environment both methods return 0 and call nothing, in a plain environment they
return the status of the full freelist's method, which is called once. -/
theorem C17_witness :
    PageManager.add_to_freelist fm0
        { m_env := { flags := HAM_IN_MEMORY }, m_freelist := none, created := 0 }
        { db := some { reduced_freelist := none }, address := 1024 } =
      (0, { m_env := { flags := HAM_IN_MEMORY }, m_freelist := none, created := 0 }, []) ∧
    PageManager.add_to_freelist_area fm0
        { m_env := { flags := 0 }, m_freelist := none, created := 0 }
        (some { reduced_freelist := none }) 2048 64 =
      (-8, { m_env := { flags := 0 },
             m_freelist := some { env := { flags := 0 }, serial := 0 }, created := 1 },
        [FreelistCall.free_area (Freelist.full { env := { flags := 0 }, serial := 0 })
          2048 64]) :=
  ⟨(C17_add_to_freelist_delegates_or_does_nothing fm0
      { m_env := { flags := HAM_IN_MEMORY }, m_freelist := none, created := 0 }
      { db := some { reduced_freelist := none }, address := 1024 }
      (some { reduced_freelist := none }) 2048 64).1 (by decide),
    (C17_add_to_freelist_delegates_or_does_nothing fm0
      { m_env := { flags := 0 }, m_freelist := none, created := 0 }
      { db := some { reduced_freelist := none }, address := 1024 }
      (some { reduced_freelist := none }) 2048 64).2.2.2.1
      (Freelist.full { env := { flags := 0 }, serial := 0 }) (by decide)⟩

/-- C20, a counterexample to the claim as stated: in an in-memory environment, and
in a read-only one, with no full freelist and a database without reduced
freelist, `get_freelist(db)` returns null, and `get_blob_alignment(db)` calls the
method through that null pointer. -/
theorem C20_counterexample :
    PageManager.get_freelist
        { m_env := { flags := HAM_IN_MEMORY }, m_freelist := none, created := 0 }
        (some { reduced_freelist := none }) =
      (none, { m_env := { flags := HAM_IN_MEMORY }, m_freelist := none, created := 0 }) ∧
    (PageManager.get_blob_alignment fm0
        { m_env := { flags := HAM_IN_MEMORY }, m_freelist := none, created := 0 }
        (some { reduced_freelist := none })).1 = none ∧
    PageManager.get_freelist
        { m_env := { flags := HAM_READ_ONLY }, m_freelist := none, created := 0 }
        (some { reduced_freelist := none }) =
      (none, { m_env := { flags := HAM_READ_ONLY }, m_freelist := none, created := 0 }) ∧
    (PageManager.get_blob_alignment fm0
        { m_env := { flags := HAM_READ_ONLY }, m_freelist := none, created := 0 }
        (some { reduced_freelist := none })).1 = none := by
  decide

/-- C20, amended.  `get_blob_alignment(db)` uses the freelist that
`get_freelist(db)` returns.  That is a freelist `f`, and the result is the
alignment of `f`, whenever the database has a reduced freelist, or a full freelist
exists already, or the environment is neither in-memory nor read-only.  In an
in-memory or read-only environment without a full freelist, for a database
without reduced freelist (or for no database), `get_freelist(db)` returns null
and leaves the page manager as it is. -/
theorem C20_blob_alignment_needs_a_freelist (fm : FreelistMethods) (pm : PageManager)
    (db : Option Database) :
    ((reduced_of db ≠ none ∨ pm.m_freelist ≠ none ∨
        (pm.m_env.flags &&& HAM_IN_MEMORY = 0 ∧ pm.m_env.flags &&& HAM_READ_ONLY = 0)) →
      ∃ f, (pm.get_freelist db).1 = some f ∧
        pm.get_blob_alignment fm db =
          (some (fm.get_blob_alignment f), (pm.get_freelist db).2)) ∧
    (reduced_of db = none → pm.m_freelist = none →
      (pm.m_env.flags &&& HAM_IN_MEMORY ≠ 0 ∨ pm.m_env.flags &&& HAM_READ_ONLY ≠ 0) →
      pm.get_freelist db = (none, pm)) := by
  refine ⟨fun h => ?_, fun h1 h2 h3 => ?_⟩
  · cases hf : (pm.get_freelist db).1 with
    | none =>
      exfalso
      obtain ⟨g1, g2, g3⟩ := (get_freelist_none_iff pm db).1.mp hf
      rcases h with h | h | h
      · exact h g1
      · exact h g2
      · rcases g3 with g | g
        · exact g h.1
        · exact g h.2
    | some f =>
      refine ⟨f, rfl, ?_⟩
      simp only [PageManager.get_blob_alignment, hf]
  · have hn := (get_freelist_none_iff pm db).1.mpr ⟨h1, h2, h3⟩
    have hs := (get_freelist_none_iff pm db).2 hn
    exact Prod.ext hn hs

/-- The claim C20, as amended, in a plain environment and in an in-memory
environment, for a database without reduced freelist. -/
theorem C20_witness :
    (∃ f, (PageManager.get_freelist
          { m_env := { flags := 0 }, m_freelist := none, created := 0 }
          (some { reduced_freelist := none })).1 = some f ∧
        PageManager.get_blob_alignment fm0
            { m_env := { flags := 0 }, m_freelist := none, created := 0 }
            (some { reduced_freelist := none }) =
          (some (fm0.get_blob_alignment f),
            (PageManager.get_freelist
              { m_env := { flags := 0 }, m_freelist := none, created := 0 }
              (some { reduced_freelist := none })).2)) ∧
    PageManager.get_freelist
        { m_env := { flags := HAM_IN_MEMORY }, m_freelist := none, created := 0 }
        (some { reduced_freelist := none }) =
      (none, { m_env := { flags := HAM_IN_MEMORY }, m_freelist := none, created := 0 }) :=
  ⟨(C20_blob_alignment_needs_a_freelist fm0
      { m_env := { flags := 0 }, m_freelist := none, created := 0 }
      (some { reduced_freelist := none })).1 (Or.inr (Or.inr ⟨by decide, by decide⟩)),
    (C20_blob_alignment_needs_a_freelist fm0
      { m_env := { flags := HAM_IN_MEMORY }, m_freelist := none, created := 0 }
      (some { reduced_freelist := none })).2 rfl rfl (Or.inl (by decide))⟩

/-! ## A failing db_free_page during commit -/

/-- C19, the code at a failing input: pagelist `1, 2, 3`, every page with refcount
1, page `2` with DELETE_PENDING, and `db_free_page` of page `2` fails with status
-18.  `ham_txn_commit` returns -18; pages `1` and `2` have been released once, page
`3` not at all (refcount still 1), and the pagelist is not empty: it is still the
old head, page `1`.  The `ham_txn_abort` that follows releases page `1` a second
time (refcount -1) and again does not release page `3`. -/
theorem C19_free_failure_leaves_pagelist_and_leaks :
    ((store123d.pages 1).refcount, (store123d.pages 2).refcount,
      (store123d.pages 3).refcount) = (1, 1, 1) ∧
    delete_pending (store123d.pages 2) ∧
    (ham_txn_commit (dev_free_fails 2 (-18)) 3 store123d 1 0).map (fun r =>
      (r.2, (r.1.pages 1).refcount, (r.1.pages 2).refcount, (r.1.pages 3).refcount,
        (r.1.txns 1).pagelist)) = some (-18, 0, 0, 1, 1) ∧
    ((ham_txn_commit (dev_free_fails 2 (-18)) 3 store123d 1 0).bind (fun r =>
      (ham_txn_abort 3 r.1 1).map (fun a =>
        (a.2, (a.1.pages 1).refcount, (a.1.pages 2).refcount, (a.1.pages 3).refcount,
          (a.1.txns 1).pagelist)))) = some (0, -1, 0, 1, 0) := by
  decide

/-- Whenever `db_free_page` of the DELETE_PENDING page `q` fails during
`ham_txn_commit` after the calls for the pages `pre` have succeeded, commit returns
the status of that call, the pages of `pre` and `q` have been released once, the
refcount of the pages behind `q` has not changed, and the pagelist of the
transaction is still the old head. -/
theorem free_failure_refcounts (dev : Device) (fuel : Nat) (s : Store) (txn flags : Nat)
    (pre : List Nat) (q : Nat) (post : List Nat)
    (h : IsPagelist s.pages (s.txns txn).pagelist (pre ++ q :: post))
    (hf : (pre ++ q :: post).length ≤ fuel)
    (hok : ∀ p ∈ pre, commit_status dev s p = 0)
    (hq : delete_pending (s.pages q)) (hst : dev.free_status q ≠ 0) :
    ∃ s', ham_txn_commit dev fuel s txn flags = some (s', dev.free_status q) ∧
      (∀ p ∈ pre, (s'.pages p).refcount = (s.pages p).refcount - 1) ∧
      (s'.pages q).refcount = (s.pages q).refcount - 1 ∧
      (∀ p ∈ post, (s'.pages p).refcount = (s.pages p).refcount) ∧
      (s'.txns txn).pagelist = (s.txns txn).pagelist := by
  have hnd := IsPagelist_nodup _ _ h
  have hnd1 : pre.Nodup := (List.nodup_append.mp hnd).1
  have hdisj := (List.nodup_append.mp hnd).2.2
  have hqpre : q ∉ pre := fun hm => hdisj hm (List.mem_cons_self _ _)
  have hqpost : q ∉ post := (List.nodup_cons.mp (List.nodup_append.mp hnd).2.1).1
  have hq2 : delete_pending ((commit_steps (s.txns txn).db flags
      (db_set_txn s (s.txns txn).db 0) pre).pages q) := by
    simp only [delete_pending, commit_steps_flags]
    exact hq
  have he : ham_txn_commit dev fuel s txn flags =
      some (commit_step (commit_steps (s.txns txn).db flags
        (db_set_txn s (s.txns txn).db 0) pre) (s.txns txn).db flags q,
        dev.free_status q) := by
    rw [ham_txn_commit_eq dev fuel s txn flags _ h hf,
      commit_pages_append_ok dev txn (s.txns txn).db flags fuel pre (q :: post)
        (db_set_txn s (s.txns txn).db 0) hok,
      commit_pages_cons_free_fail dev txn (s.txns txn).db flags fuel _ q post hq2 hst]
  refine ⟨_, he, ?_, ?_, ?_, ?_⟩
  · intro p hp
    have hpq : p ≠ q := fun e => hqpre (e ▸ hp)
    simp [commit_step, Function.update, hpq, commit_steps_pages _ _ pre _ hnd1 p, hp,
      committed, db_set_txn]
  · simp [commit_step, commit_steps_pages _ _ pre _ hnd1 q, hqpre, committed, db_set_txn]
  · intro p hp
    have hpq : p ≠ q := fun e => hqpost (e ▸ hp)
    have hppre : p ∉ pre := fun hm => hdisj hm (List.mem_cons_of_mem _ hp)
    simp [commit_step, Function.update, hpq, commit_steps_pages _ _ pre _ hnd1 p, hppre,
      db_set_txn]
  · simp [commit_step, (commit_steps_rest _ _ pre _).1, db_set_txn]

/-- The general statement at the pagelist `1, 2, 3` of `store123d` when
`db_free_page` of page `2` fails with status -18. -/
theorem free_failure_refcounts_witness :
    ∃ s', ham_txn_commit (dev_free_fails 2 (-18)) 3 store123d 1 0 =
        some (s', (dev_free_fails 2 (-18)).free_status 2) ∧
      (∀ p ∈ [1], (s'.pages p).refcount = (store123d.pages p).refcount - 1) ∧
      (s'.pages 2).refcount = (store123d.pages 2).refcount - 1 ∧
      (∀ p ∈ [3], (s'.pages p).refcount = (store123d.pages p).refcount) ∧
      (s'.txns 1).pagelist = (store123d.txns 1).pagelist :=
  free_failure_refcounts (dev_free_fails 2 (-18)) 3 store123d 1 0 [1] 2 [3]
    (by decide) (by decide) (by decide) (by decide) (by decide)

/-! ## Flush and fetch of a page -/

theorem read_after_write (d d2 : FileDevice) (addr : Nat) (buf : List Nat)
    (h : d.write_page addr buf = some d2) :
    d2.read_page addr buf.length = some buf := by
  unfold FileDevice.write_page at h
  split_ifs at h with hsz
  simp only [Option.some.injEq] at h
  subst h
  unfold FileDevice.read_page
  simp only [if_pos hsz, Option.some.injEq]
  apply List.ext_getElem
  · simp
  · intro i h1 h2
    simp only [List.length_map, List.length_range] at h1
    simp [h1, List.getD_eq_getElem]

/-- C18: flush then fetch is a round trip.  For a page at an address that lies
with its `pagesize` bytes inside the file, whose buffer holds any `pagesize`
bytes and whose dirty bit is set, `page_flush` succeeds, leaves the page not
dirty and its buffer as it is, and a `page_fetch` of the same address into a
second page then succeeds and yields a buffer equal to the first page's buffer.
A flush of a page that is not dirty changes nothing. -/
theorem C18_flush_then_fetch_round_trip (d : FileDevice) (page temp : DiskPage)
    (pagesize : Nat) (hlen : page.pers.length = pagesize) (hdirty : page.dirty = true)
    (halloc : page.self + pagesize ≤ d.filesize) (htemp : temp.self = page.self) :
    (page_flush d page).2.2 = 0 ∧
    (page_flush d page).2.1.dirty = false ∧
    (page_flush d page).2.1.pers = page.pers ∧
    (page_fetch (page_flush d page).1 temp pagesize).2 = 0 ∧
    (page_fetch (page_flush d page).1 temp pagesize).1.pers = page.pers ∧
    (∀ clean : DiskPage, clean.dirty = false → page_flush d clean = (d, clean, 0)) := by
  have hsz : page.self + page.pers.length ≤ d.filesize := by rw [hlen]; exact halloc
  have hw : ∃ d2, d.write_page page.self page.pers = some d2 := by
    unfold FileDevice.write_page
    rw [if_pos hsz]
    exact ⟨_, rfl⟩
  obtain ⟨d2, hd2⟩ := hw
  have hfl : page_flush d page = (d2, { page with dirty := false }, 0) := by
    simp [page_flush, hdirty, hd2]
  have hrd := read_after_write d d2 page.self page.pers hd2
  rw [hlen] at hrd
  have hft : page_fetch d2 temp pagesize = ({ temp with pers := page.pers }, 0) := by
    simp [page_fetch, htemp, hrd]
  rw [hfl]
  refine ⟨rfl, rfl, rfl, ?_, ?_, ?_⟩
  · show (page_fetch d2 temp pagesize).2 = 0
    rw [hft]
  · show (page_fetch d2 temp pagesize).1.pers = page.pers
    rw [hft]
  · intro clean hc
    simp [page_flush, hc]

/-- The claim C18 at the test's witness: a page of 4096 bytes 0x13 at address 4096
of a file of two pages. -/
theorem C18_witness :
    (page_flush { filesize := 8192, bytes := fun _ => 0 }
      { self := 4096, pers := List.replicate 4096 0x13, dirty := true }).2.2 = 0 ∧
    (page_flush { filesize := 8192, bytes := fun _ => 0 }
      { self := 4096, pers := List.replicate 4096 0x13, dirty := true }).2.1.dirty = false ∧
    (page_flush { filesize := 8192, bytes := fun _ => 0 }
      { self := 4096, pers := List.replicate 4096 0x13, dirty := true }).2.1.pers =
      List.replicate 4096 0x13 ∧
    (page_fetch (page_flush { filesize := 8192, bytes := fun _ => 0 }
        { self := 4096, pers := List.replicate 4096 0x13, dirty := true }).1
      { self := 4096, pers := [], dirty := false } 4096).2 = 0 ∧
    (page_fetch (page_flush { filesize := 8192, bytes := fun _ => 0 }
        { self := 4096, pers := List.replicate 4096 0x13, dirty := true }).1
      { self := 4096, pers := [], dirty := false } 4096).1.pers =
      List.replicate 4096 0x13 ∧
    (∀ clean : DiskPage, clean.dirty = false →
      page_flush { filesize := 8192, bytes := fun _ => 0 } clean =
        ({ filesize := 8192, bytes := fun _ => 0 }, clean, 0)) :=
  C18_flush_then_fetch_round_trip { filesize := 8192, bytes := fun _ => 0 }
    { self := 4096, pers := List.replicate 4096 0x13, dirty := true }
    { self := 4096, pers := [], dirty := false } 4096
    (List.length_replicate _ _) rfl (by decide) rfl

end Upscaledb
